import Mathlib

/-!
Verification of the crypto-analysis repository's core components against its
design specification.

Shallow embedding of:
* `scripts/iterative_gpu_bfs.py` — the iterative GPU BFS driver
  (`iterative_bfs_sirius`): seed selection, per-hop frontier expansion,
  visited-set bookkeeping, the 100000-node frontier cap, the per-hop
  failure handling (command failure / missing result artifact), and the
  final result dictionary.
* `scripts/02_run_benchmarks.py` — the benchmark record computations of
  `run_duckdb_benchmark` (cold_start and persistent_session modes) and
  `run_sirius_benchmark` (cold_start and persistent_session modes).
* `scripts/verify_query_results.py` — the CPU-fallback marker detection of
  `run_sirius_query` and the trial classification of `verify_all`.

Modelling conventions:
* Node ids and class labels are `Nat` (the CSV columns are integers; the
  start class `'1'` is modelled as `1`).
* Wall-clock measurements (`time.time()` differences) are inputs of type
  `ℚ`; the embedding models the arithmetic the scripts perform on the
  measured values, not the measuring itself.
* The external Sirius process is an oracle: the semantic content of a hop's
  expansion query (`SELECT DISTINCT e.txId2 FROM edges e WHERE e.txId1 IN
  (frontier)`) is computed from the edges table, while the two per-hop
  failure modes of the script (the write to the process's stdin raising, and
  the exported CSV being absent) are supplied as Boolean oracles indexed by
  the hop's distance.
* The row order SQL produces for a `SELECT DISTINCT` result is unspecified;
  the embedding fixes one deterministic order (`List.dedup` of the target
  column in edge-table order).
-/

/-- One row of the `nodes` table: `(txId, class)`. -/
abbrev NodeRow := Nat × Nat

/-- One row of the `edges` table: `(txId1, txId2)`, a directed edge. -/
abbrev EdgeRow := Nat × Nat

/-- The distance-0 query of `iterative_bfs_sirius` (line 119):
`SELECT txId FROM nodes WHERE class = '{start_class}'`, read back as a list
in table order (no DISTINCT, so duplicate rows are kept). -/
def seedsOf (nodes : List NodeRow) (startClass : Nat) : List Nat :=
  (nodes.filter (fun r => decide (r.2 = startClass))).map Prod.fst

/-- The per-hop expansion query (line 163):
`SELECT DISTINCT e.txId2 AS node_id FROM edges e WHERE e.txId1 IN (frontier)`.
`dedup` models DISTINCT; the row order of the result is a modelling choice. -/
def expand (edges : List EdgeRow) (frontier : List Nat) : List Nat :=
  ((edges.filter (fun e => decide (e.1 ∈ frontier))).map Prod.snd).dedup

/-- Console warnings `iterative_bfs_sirius` prints (only in verbose mode):
the large-frontier sampling warning (line 156), the iteration-failed warning
(line 173) and the no-output-file message (line 183), each tagged with the
hop's distance. -/
inductive BfsEvent where
  | truncWarn (d : Nat)
  | iterFail (d : Nat)
  | noOutput (d : Nat)
deriving DecidableEq

/-- The mutable state of the BFS loop in `iterative_bfs_sirius`.
`visited`, `counts` (= `distance_counts`, as an association list in
insertion order), `frontier` (= `frontier_nodes`), `dist`
(= `current_distance`) and `iter` (= `iteration`) are the Python locals.
The remaining fields are instrumentation that does not influence the
computation: `layers` records the exact node list first discovered at each
distance (the Python code only records its length in `distance_counts`);
`truncated` records that the `len(frontier_nodes) > 100000` branch at line
154 was ever taken; `cmdFailed` records that the `except` at line 171 fired;
`fileMissed` records that the `except FileNotFoundError` at line 181 fired;
`log` collects the console warnings actually printed. -/
structure BfsState where
  visited : List Nat
  counts : List (Nat × Nat)
  frontier : List Nat
  dist : Nat
  iter : Nat
  layers : List (List Nat)
  truncated : Bool
  cmdFailed : Bool
  fileMissed : Bool
  log : List BfsEvent
deriving DecidableEq

/-- The start of one loop iteration (lines 147-159): `iteration += 1`,
`current_distance += 1`, and the frontier cap: if the frontier holds more
than 100000 nodes it is replaced by its first 100000 elements
(`frontier_nodes[:100000]`), with a console warning in verbose mode. -/
def bfsHopSetup (verbose : Bool) (st : BfsState) : BfsState :=
  let d := st.dist + 1
  let tr : Bool := decide (100000 < st.frontier.length)
  let fr := if 100000 < st.frontier.length then st.frontier.take 100000
            else st.frontier
  { st with dist := d, iter := st.iter + 1, frontier := fr,
            truncated := st.truncated || tr,
            log := if tr && verbose then st.log ++ [BfsEvent.truncWarn d]
                   else st.log }

/-- The `while len(frontier_nodes) > 0 and current_distance < max_hops` loop
of `iterative_bfs_sirius` (lines 146-202).  The fuel argument equals
`max_hops - current_distance`, which bounds the remaining iterations because
`current_distance` increases by one per iteration.  `cmdFail d` is true when
the hop at distance `d` fails to submit its expansion command (the `except`
at line 171: break); `fileMiss d` is true when the hop's exported CSV is
absent (line 181: break).  Otherwise the hop reads the expansion result,
filters out already-visited ids, and either breaks (no new nodes) or records
the new nodes at distance `d` and continues with them as the frontier. -/
def bfsLoop (edges : List EdgeRow) (cmdFail fileMiss : Nat → Bool)
    (verbose : Bool) : Nat → BfsState → BfsState
  | 0, st => st
  | fuel + 1, st =>
    if st.frontier.length = 0 then st
    else
      let st1 := bfsHopSetup verbose st
      if cmdFail st1.dist then
        { st1 with cmdFailed := true,
                   log := if verbose then st1.log ++ [BfsEvent.iterFail st1.dist]
                          else st1.log }
      else if fileMiss st1.dist then
        { st1 with fileMissed := true,
                   log := if verbose then st1.log ++ [BfsEvent.noOutput st1.dist]
                          else st1.log }
      else
        let newNodes :=
          (expand edges st1.frontier).filter (fun n => decide (n ∉ st1.visited))
        if newNodes.length = 0 then st1
        else
          bfsLoop edges cmdFail fileMiss verbose fuel
            { st1 with visited := st1.visited ++ newNodes,
                       counts := st1.counts ++ [(st1.dist, newNodes.length)],
                       layers := st1.layers ++ [newNodes],
                       frontier := newNodes }

/-- The `new_nodes` list of one non-failing hop (lines 180-187): the
expansion result for the (possibly capped) frontier, minus visited ids. -/
def bfsNewNodes (edges : List EdgeRow) (v : Bool) (st : BfsState) : List Nat :=
  (expand edges (bfsHopSetup v st).frontier).filter
    (fun n => decide (n ∉ (bfsHopSetup v st).visited))

/-- The state a continuing hop passes to the next iteration (lines
194-202): visited and `distance_counts` absorb the new nodes, which become
the next frontier. -/
def bfsHopNext (edges : List EdgeRow) (v : Bool) (st : BfsState) : BfsState :=
  { bfsHopSetup v st with
      visited := (bfsHopSetup v st).visited ++ bfsNewNodes edges v st,
      counts := (bfsHopSetup v st).counts
        ++ [((bfsHopSetup v st).dist, (bfsNewNodes edges v st).length)],
      layers := (bfsHopSetup v st).layers ++ [bfsNewNodes edges v st],
      frontier := bfsNewNodes edges v st }

/-- The state after the distance-0 phase (lines 119-136): the seed list
becomes the frontier, the visited set (deduplicated, as a Python set), and
`distance_counts[0] = len(frontier_nodes)` counts the raw seed list. -/
def bfsInit (nodes : List NodeRow) (startClass : Nat) : BfsState :=
  let fr := seedsOf nodes startClass
  { visited := fr.dedup, counts := [(0, fr.length)], frontier := fr,
    dist := 0, iter := 0, layers := [fr.dedup],
    truncated := false, cmdFailed := false, fileMissed := false, log := [] }

/-- The whole BFS run, producing the final loop state. -/
def bfsRunState (nodes : List NodeRow) (edges : List EdgeRow)
    (startClass maxHops : Nat) (cmdFail fileMiss : Nat → Bool)
    (verbose : Bool) : BfsState :=
  bfsLoop edges cmdFail fileMiss verbose maxHops (bfsInit nodes startClass)

/-- The dictionary returned by `iterative_bfs_sirius` (lines 229-238),
restricted to its semantic fields.  The wall-clock fields (`total_time`,
`init_time`, `gpu_time`, `avg_time_per_iteration`) are measurements and are
not modelled.  Note there is no field recording truncation, command failure
or a missing result artifact. -/
structure BFSResult where
  total_nodes : Nat
  max_distance : Nat
  distances : List (Nat × Nat)
  iterations : Nat
deriving DecidableEq

/-- Result extraction (lines 229-238): `total_nodes = len(visited)`,
`max_distance = max(distance_counts.keys()) if distance_counts else 0`,
`distances = distance_counts`, `iterations = iteration`. -/
def bfsResult (st : BfsState) : BFSResult :=
  { total_nodes := st.visited.length,
    max_distance := if st.counts.isEmpty then 0
                    else (st.counts.map Prod.fst).foldl max 0,
    distances := st.counts,
    iterations := st.iter }

/-- `iterative_bfs_sirius`, as observed by its caller. -/
def iterative_bfs_sirius (nodes : List NodeRow) (edges : List EdgeRow)
    (startClass maxHops : Nat) (cmdFail fileMiss : Nat → Bool)
    (verbose : Bool) : BFSResult :=
  bfsResult (bfsRunState nodes edges startClass maxHops cmdFail fileMiss verbose)

/-- A run with no external failures, not verbose (the defaults used by the
script's callers). -/
def cleanRun (nodes : List NodeRow) (edges : List EdgeRow)
    (startClass maxHops : Nat) : BfsState :=
  bfsRunState nodes edges startClass maxHops (fun _ => false) (fun _ => false) false

/-- Reference semantics for the distance claims: the set of ids reachable
from the seed set within `k` edge traversals.  `succsF S` is the set of
targets of edges whose source lies in `S`. -/
def succsF (edges : List EdgeRow) (s : Finset Nat) : Finset Nat :=
  ((edges.filter (fun e => decide (e.1 ∈ s))).map Prod.snd).toFinset

/-- `reach edges s k`: ids reachable from the set `s` in at most `k` edge
traversals. -/
def reach (edges : List EdgeRow) (s : Finset Nat) : Nat → Finset Nat
  | 0 => s
  | k + 1 => reach edges s k ∪ succsF edges (reach edges s k)

/-- `newAt edges s d`: ids whose least distance from `s` is exactly `d`. -/
def newAt (edges : List EdgeRow) (s : Finset Nat) : Nat → Finset Nat
  | 0 => s
  | k + 1 => reach edges s (k + 1) \ reach edges s k

/-- `hasDist edges s n d`: the minimum number of edge traversals needed to
reach `n` from the seed set `s` is exactly `d`. -/
def hasDist (edges : List EdgeRow) (s : Finset Nat) (n d : Nat) : Prop :=
  n ∈ reach edges s d ∧ ∀ k, k < d → n ∉ reach edges s k

/-- A 100001-node dataset in which every node has the seed class, so the
first frontier exceeds the script's hard-coded 100000-node cap. -/
def bigNodes : List NodeRow := (List.range 100001).map (fun i => (i, 1))

/-- Three edges over `bigNodes`: seed 100000 (the one id the frontier cap
drops) points straight at 200000, while the two-edge path 0 → 300000 →
200000 reaches the same target; used to exhibit a wrong recorded distance
after truncation. -/
def capEdges : List EdgeRow := [(100000, 200000), (0, 300000), (300000, 200000)]

/-! Benchmark records, `scripts/02_run_benchmarks.py`. -/

/-- Python `min(l)` for a nonempty list (0 as a junk value on `[]`, which
the scripts never hit). -/
def listMin : List ℚ → ℚ
  | [] => 0
  | x :: xs => xs.foldl min x

/-- Python `max(l)` for a nonempty list. -/
def listMax : List ℚ → ℚ
  | [] => 0
  | x :: xs => xs.foldl max x

/-- `sum(l) / len(l)`. -/
def mean (l : List ℚ) : ℚ := l.sum / l.length

/-- The dictionary `run_duckdb_benchmark` returns in `cold_start` mode
(lines 128-139), restricted to its numeric fields. -/
structure DuckColdRecord where
  initialization_time : ℚ
  avg_query_time : ℚ
  total_time : ℚ
  min_query_time : ℚ
  max_query_time : ℚ
  num_runs : Nat
deriving DecidableEq

/-- `run_duckdb_benchmark`, `cold_start` branch (lines 99-139): per-trial
load times and query-execution times are collected separately; the record
reports their means, their sum, and the min/max of the query times only. -/
def run_duckdb_benchmark_cold (loadTimes executionTimes : List ℚ) :
    DuckColdRecord :=
  { initialization_time := mean loadTimes,
    avg_query_time := mean executionTimes,
    total_time := mean loadTimes + mean executionTimes,
    min_query_time := listMin executionTimes,
    max_query_time := listMax executionTimes,
    num_runs := executionTimes.length }

/-- The dictionary `run_duckdb_benchmark` returns in `persistent_session`
mode (lines 212-224), restricted to its numeric fields. -/
structure DuckPersistRecord where
  initialization_time : ℚ
  session_total_time : ℚ
  avg_query_time : ℚ
  total_time : ℚ
  num_queries : Nat
  amortized_time_per_query : ℚ
  result_row_count : Nat
deriving DecidableEq

/-- `run_duckdb_benchmark`, `persistent_session` branch (lines 180-224):
`avg_query_time = session_time / session_queries`,
`total_time = init_time + session_time`,
`amortized_time_per_query = total_time / session_queries`. -/
def run_duckdb_benchmark_persistent (initTime sessionTime : ℚ)
    (sessionQueries rowCount : Nat) : DuckPersistRecord :=
  { initialization_time := initTime,
    session_total_time := sessionTime,
    avg_query_time := sessionTime / (sessionQueries : ℚ),
    total_time := initTime + sessionTime,
    num_queries := sessionQueries,
    amortized_time_per_query := (initTime + sessionTime) / (sessionQueries : ℚ),
    result_row_count := rowCount }

/-- The dictionary `run_sirius_benchmark` returns in `persistent_session`
mode (lines 554-568), restricted to its numeric fields. -/
structure SiriusPersistRecord where
  initialization_time : ℚ
  session_total_time : ℚ
  avg_query_time : ℚ
  total_time : ℚ
  num_queries : Nat
  amortized_time_per_query : ℚ
deriving DecidableEq

/-- `run_sirius_benchmark`, `persistent_session` branch (lines 477-568):
only the whole session's wall time is measured; the init estimate is
`min(total_time * 0.3, 5.0)` (0.3 modelled as 3/10), the session time is the
rest, `avg_query_time` divides by `session_queries + 1` (the warm-up), and
`amortized_time_per_query = total_time / session_queries`. -/
def run_sirius_benchmark_persistent (totalTime : ℚ) (sessionQueries : Nat) :
    SiriusPersistRecord :=
  let estimatedInit := min (totalTime * (3 / 10)) 5
  let sessionTime := totalTime - estimatedInit
  { initialization_time := estimatedInit,
    session_total_time := sessionTime,
    avg_query_time := sessionTime / ((sessionQueries : ℚ) + 1),
    total_time := totalTime,
    num_queries := sessionQueries,
    amortized_time_per_query := totalTime / (sessionQueries : ℚ) }

/-- What `run_sirius_benchmark` observes of one `cold_start` trial: the
subprocess's return code, whether its captured output contains the
CPU-fallback marker text or the GPU-error text, and the measured wall
time.  (The cold_start code at lines 344-365 never inspects the output
text; the marker fields record what a reader of the output would see.) -/
structure SiriusRunOutcome where
  returncode : Int
  stderrHasFallback : Bool
  stderrHasGpuError : Bool
  elapsed : ℚ
deriving DecidableEq

/-- Lines 347-358: a trial's time is kept exactly when the return code is
zero; nothing else about the trial is examined. -/
def siriusColdTimes (runs : List SiriusRunOutcome) : List ℚ :=
  (runs.filter (fun r => r.returncode == 0)).map SiriusRunOutcome.elapsed

/-- The numeric fields of the success dictionary of `run_sirius_benchmark`
in `cold_start` mode (lines 376-387). -/
structure SiriusColdRecord where
  total_time : ℚ
  min_total_time : ℚ
  max_total_time : ℚ
  num_runs : Nat
deriving DecidableEq

/-- `run_sirius_benchmark`, `cold_start` mode: either the all-runs-failed
error dictionary (lines 369-371) or the statistics of the successful runs'
total times (lines 373-387). -/
inductive SiriusColdOutput where
  | errorAllRunsFailed
  | ok (r : SiriusColdRecord)
deriving DecidableEq

/-- `run_sirius_benchmark`, `cold_start` branch (lines 322-393). -/
def run_sirius_benchmark_cold (runs : List SiriusRunOutcome) :
    SiriusColdOutput :=
  let ts := siriusColdTimes runs
  if ts.isEmpty then SiriusColdOutput.errorAllRunsFailed
  else SiriusColdOutput.ok
    { total_time := mean ts,
      min_total_time := listMin ts,
      max_total_time := listMax ts,
      num_runs := ts.length }

/-- `scripts/verify_query_results.py` lines 115-118: the GPU is considered
used unless stderr contains `"fallback to DuckDB"` or
`"Error in GPUExecuteQuery"` (the two substring tests are modelled as
Booleans). -/
def gpu_used (stderrHasFallback stderrHasGpuError : Bool) : Bool :=
  !(stderrHasFallback || stderrHasGpuError)

/-- The status `verify_all` records for a trial (lines 191-246). -/
inductive TrialStatus where
  | pass
  | cpuFallback
  | mismatch
  | failed
deriving DecidableEq

/-- The classification `verify_all` applies once the DuckDB side succeeded
(lines 201-246): a failed Sirius run is FAILED; otherwise a trial whose
output carried a fallback marker is recorded as CPU_FALLBACK (it is still
appended to the results list); otherwise PASS or MISMATCH by result
comparison. -/
def classify_trial (siriusOk gpuUsed resultsMatch : Bool) : TrialStatus :=
  if !siriusOk then TrialStatus.failed
  else if !gpuUsed then TrialStatus.cpuFallback
  else if resultsMatch then TrialStatus.pass
  else TrialStatus.mismatch

/-! Helper lemmas. -/

theorem sum_zipWith_add :
    ∀ (a b : List ℚ), a.length = b.length →
      (List.zipWith (· + ·) a b).sum = a.sum + b.sum
  | [], [], _ => by simp
  | x :: xs, y :: ys, h => by
    simp only [List.zipWith_cons_cons, List.sum_cons]
    rw [sum_zipWith_add xs ys (by simpa using h)]
    ring
  | [], _ :: _, h => by simp at h
  | _ :: _, [], h => by simp at h

theorem mean_zipWith_add (a b : List ℚ) (h : a.length = b.length) :
    mean (List.zipWith (· + ·) a b) = mean a + mean b := by
  unfold mean
  rw [sum_zipWith_add a b h, List.length_zipWith, h, min_self, add_div]

/-! ### C7 -/

/-- C7: in persistent-session mode the recorded `amortized_time_per_query`
field equals the recorded `total_time` field divided by the number of
session queries, for both `run_duckdb_benchmark` and
`run_sirius_benchmark` — an arithmetic identity of the recorded fields. -/
theorem claim_C7 (initTime sessionTime totalTime : ℚ) (n rowCount : Nat)
    (hn : 0 < n) :
    (run_duckdb_benchmark_persistent initTime sessionTime n rowCount).amortized_time_per_query
      = (run_duckdb_benchmark_persistent initTime sessionTime n rowCount).total_time / (n : ℚ)
    ∧ (run_sirius_benchmark_persistent totalTime n).amortized_time_per_query
      = (run_sirius_benchmark_persistent totalTime n).total_time / (n : ℚ) :=
  ⟨rfl, rfl⟩

/-- Witness for C7 at a concrete instance (100 session queries). -/
theorem claim_C7_witness :
    0 < 100
    ∧ ((run_duckdb_benchmark_persistent 2 30 100 5).amortized_time_per_query
        = (run_duckdb_benchmark_persistent 2 30 100 5).total_time / ((100 : Nat) : ℚ)
      ∧ (run_sirius_benchmark_persistent 40 100).amortized_time_per_query
        = (run_sirius_benchmark_persistent 40 100).total_time / ((100 : Nat) : ℚ)) :=
  ⟨by norm_num, claim_C7 2 30 40 100 5 (by norm_num)⟩

/-! ### C8 -/

/-- C8 counterexample: in `cold_start` mode with one trial whose load time
is 10 and whose query time is 1, the reported minimum (`min_query_time`,
line 136) is 1, the minimum of the combined load+query times is 11, so the
reported min/max are not statistics of the combined (load+init+query) time
per trial as the claim states (the reported `max_query_time` disagrees with
the combined maximum on the same input). -/
theorem claim_C8_counterexample :
    (run_duckdb_benchmark_cold [10] [1]).min_query_time
        ≠ listMin (List.zipWith (· + ·) [(10 : ℚ)] [1])
    ∧ (run_duckdb_benchmark_cold [10] [1]).min_query_time = 1
    ∧ listMin (List.zipWith (· + ·) [(10 : ℚ)] [1]) = 11
    ∧ (run_duckdb_benchmark_cold [10] [1]).max_query_time
        ≠ listMax (List.zipWith (· + ·) [(10 : ℚ)] [1]) := by
  refine ⟨by simp [run_duckdb_benchmark_cold, listMin], by simp [run_duckdb_benchmark_cold, listMin], by simp [listMin]; norm_num, by simp [run_duckdb_benchmark_cold, listMax]⟩

/-- C8 (amended): in `cold_start` mode the reported `total_time` is the mean
of the per-trial combined (load+query) times, while the reported minimum and
maximum are statistics of the query-only times; with a single trial the
reported load+init time and query time are nonnegative (given nonnegative
measured durations) and their sum equals the reported total. -/
theorem claim_C8_amended :
    (∀ loads execs : List ℚ, loads.length = execs.length →
      (run_duckdb_benchmark_cold loads execs).total_time
          = mean (List.zipWith (· + ·) loads execs)
        ∧ (run_duckdb_benchmark_cold loads execs).min_query_time = listMin execs
        ∧ (run_duckdb_benchmark_cold loads execs).max_query_time = listMax execs)
    ∧ (∀ l e : ℚ, 0 ≤ l → 0 ≤ e →
        0 ≤ (run_duckdb_benchmark_cold [l] [e]).initialization_time
        ∧ 0 ≤ (run_duckdb_benchmark_cold [l] [e]).avg_query_time
        ∧ (run_duckdb_benchmark_cold [l] [e]).initialization_time
            + (run_duckdb_benchmark_cold [l] [e]).avg_query_time
            = (run_duckdb_benchmark_cold [l] [e]).total_time) := by
  constructor
  · intro loads execs h
    exact ⟨(mean_zipWith_add loads execs h).symm, rfl, rfl⟩
  · intro l e hl he
    refine ⟨?_, ?_, rfl⟩
    · simpa [run_duckdb_benchmark_cold, mean] using hl
    · simpa [run_duckdb_benchmark_cold, mean] using he

/-- Witness for C8's amended theorem at loads `[10]`, execs `[1]`. -/
theorem claim_C8_witness :
    ((run_duckdb_benchmark_cold [10] [1]).total_time
        = mean (List.zipWith (· + ·) [(10 : ℚ)] [1])
      ∧ (run_duckdb_benchmark_cold [10] [1]).min_query_time = listMin [(1 : ℚ)]
      ∧ (run_duckdb_benchmark_cold [10] [1]).max_query_time = listMax [(1 : ℚ)])
    ∧ (0 ≤ (run_duckdb_benchmark_cold [(10 : ℚ)] [1]).initialization_time
      ∧ 0 ≤ (run_duckdb_benchmark_cold [(10 : ℚ)] [1]).avg_query_time
      ∧ (run_duckdb_benchmark_cold [(10 : ℚ)] [1]).initialization_time
          + (run_duckdb_benchmark_cold [(10 : ℚ)] [1]).avg_query_time
          = (run_duckdb_benchmark_cold [(10 : ℚ)] [1]).total_time) :=
  ⟨claim_C8_amended.1 [10] [1] rfl, claim_C8_amended.2 10 1 (by norm_num) (by norm_num)⟩

/-! ### C9 -/

/-- C9 counterexample: two single-trial cold-start benchmark runs that
differ only in whether the engine output contained the CPU-fallback marker
produce identical benchmark records (`run_sirius_benchmark` never inspects
the output text, lines 347-358), so a fallback trial is recorded with no
flag and is indistinguishable, in the recorded results, from a clean trial
— contradicting the claim that such trials carry a degraded flag. -/
theorem claim_C9_counterexample :
    run_sirius_benchmark_cold [⟨0, true, false, 5⟩]
        = run_sirius_benchmark_cold [⟨0, false, false, 5⟩]
    ∧ (⟨0, true, false, 5⟩ : SiriusRunOutcome).stderrHasFallback = true
    ∧ (⟨0, false, false, 5⟩ : SiriusRunOutcome).stderrHasFallback = false :=
  ⟨rfl, rfl, rfl⟩

/-- C9 (amended): the benchmark record of `run_sirius_benchmark` depends
only on the trials' return codes and elapsed times — erasing the fallback
markers from every trial leaves the record unchanged, so fallback trials
enter benchmark results unflagged; the separate verification script is the
only place the markers are detected, and there a marked trial is classified
CPU_FALLBACK (still recorded, not discarded). -/
theorem claim_C9_amended :
    (∀ runs : List SiriusRunOutcome,
      run_sirius_benchmark_cold
          (runs.map (fun r => { r with stderrHasFallback := false,
                                       stderrHasGpuError := false }))
        = run_sirius_benchmark_cold runs)
    ∧ (∀ fb ge m : Bool, fb || ge = true →
        classify_trial true (gpu_used fb ge) m = TrialStatus.cpuFallback) := by
  constructor
  · intro runs
    have h : siriusColdTimes
        (runs.map (fun r => { r with stderrHasFallback := false,
                                     stderrHasGpuError := false }))
        = siriusColdTimes runs := by
      induction runs with
      | nil => rfl
      | cons r rs ih =>
        by_cases h0 : r.returncode == 0 <;>
          simp only [siriusColdTimes, List.map_cons, List.filter_cons] at ih ⊢ <;>
          simp [h0, ih]
    simp [run_sirius_benchmark_cold, h]
  · decide

/-- Witness for C9's amended theorem: a trial with the fallback marker. -/
theorem claim_C9_witness :
    run_sirius_benchmark_cold
        (([⟨0, true, false, 5⟩] : List SiriusRunOutcome).map
          (fun r => { r with stderrHasFallback := false,
                             stderrHasGpuError := false }))
      = run_sirius_benchmark_cold [⟨0, true, false, 5⟩]
    ∧ classify_trial true (gpu_used true false) true = TrialStatus.cpuFallback :=
  ⟨claim_C9_amended.1 [⟨0, true, false, 5⟩], claim_C9_amended.2 true false true rfl⟩


/-! Structural lemmas about the BFS loop. -/

@[simp] theorem bfsHopSetup_visited (v : Bool) (st : BfsState) :
    (bfsHopSetup v st).visited = st.visited := rfl

@[simp] theorem bfsHopSetup_counts (v : Bool) (st : BfsState) :
    (bfsHopSetup v st).counts = st.counts := rfl

@[simp] theorem bfsHopSetup_layers (v : Bool) (st : BfsState) :
    (bfsHopSetup v st).layers = st.layers := rfl

@[simp] theorem bfsHopSetup_dist (v : Bool) (st : BfsState) :
    (bfsHopSetup v st).dist = st.dist + 1 := rfl

@[simp] theorem bfsHopSetup_iter (v : Bool) (st : BfsState) :
    (bfsHopSetup v st).iter = st.iter + 1 := rfl

@[simp] theorem bfsHopSetup_cmdFailed (v : Bool) (st : BfsState) :
    (bfsHopSetup v st).cmdFailed = st.cmdFailed := rfl

@[simp] theorem bfsHopSetup_fileMissed (v : Bool) (st : BfsState) :
    (bfsHopSetup v st).fileMissed = st.fileMissed := rfl

@[simp] theorem bfsHopSetup_log_not_verbose (st : BfsState) :
    (bfsHopSetup false st).log = st.log := by
  simp [bfsHopSetup]

theorem bfsHopSetup_frontier_of_small (v : Bool) (st : BfsState)
    (h : ¬ 100000 < st.frontier.length) :
    (bfsHopSetup v st).frontier = st.frontier := by
  simp [bfsHopSetup, h]

theorem bfsHopSetup_truncated_of_small (v : Bool) (st : BfsState)
    (h : ¬ 100000 < st.frontier.length) :
    (bfsHopSetup v st).truncated = st.truncated := by
  simp [bfsHopSetup, h]

theorem bfsHopSetup_frontier_of_large (v : Bool) (st : BfsState)
    (h : 100000 < st.frontier.length) :
    (bfsHopSetup v st).frontier = st.frontier.take 100000 := by
  simp [bfsHopSetup, h]

theorem bfsHopSetup_truncated_of_large (v : Bool) (st : BfsState)
    (h : 100000 < st.frontier.length) :
    (bfsHopSetup v st).truncated = true := by
  simp [bfsHopSetup, h]

theorem bfsHopSetup_truncated_mono (v : Bool) (st : BfsState)
    (h : st.truncated = true) : (bfsHopSetup v st).truncated = true := by
  simp [bfsHopSetup, h]

theorem bfsLoop_frontier_nil (edges : List EdgeRow) (cf fm : Nat → Bool)
    (v : Bool) (fuel : Nat) (st : BfsState) (h : st.frontier.length = 0) :
    bfsLoop edges cf fm v fuel st = st := by
  cases fuel with
  | zero => rfl
  | succ n => simp only [bfsLoop, if_pos h]


theorem bfsLoop_visited_append (edges : List EdgeRow) (cf fm : Nat → Bool)
    (v : Bool) (fuel : Nat) (st : BfsState) :
    ∃ t, (bfsLoop edges cf fm v fuel st).visited = st.visited ++ t := by
  induction fuel, st using bfsLoop.induct edges cf fm v with
  | case1 st => exact ⟨[], by simp [bfsLoop]⟩
  | case2 fuel st h => exact ⟨[], by simp [bfsLoop, h]⟩
  | case3 fuel st h st1 hcf =>
      unfold_let st1 at hcf
      simp only [bfsHopSetup_dist] at hcf
      exact ⟨[], by simp [bfsLoop, h, hcf]⟩
  | case4 fuel st h st1 hcf hfm =>
      unfold_let st1 at hcf hfm
      simp only [bfsHopSetup_dist] at hcf hfm
      exact ⟨[], by simp [bfsLoop, h, hcf, hfm]⟩
  | case5 fuel st h st1 hcf hfm newNodes hnew =>
      unfold_let st1 at hcf hfm
      simp only [bfsHopSetup_dist] at hcf hfm
      unfold_let newNodes at hnew
      unfold_let st1 at hnew
      simp at hnew
      refine ⟨[], ?_⟩
      simp [bfsLoop, h, hcf, hfm]
      rw [if_pos hnew]
      simp
  | case6 fuel st h st1 hcf hfm newNodes hnew ih =>
      unfold_let st1 at hcf hfm
      simp only [bfsHopSetup_dist] at hcf hfm
      unfold_let newNodes at hnew ih
      unfold_let st1 at hnew ih
      simp only [bfsHopSetup_visited] at hnew
      have hC : ¬ ∀ a ∈ expand edges (bfsHopSetup v st).frontier, a ∈ st.visited := by
        intro hall
        apply hnew
        rw [List.length_eq_zero, List.filter_eq_nil_iff]
        intro a ha
        simp [hall a ha]
      obtain ⟨t, ht⟩ := ih
      simp at ht
      simp [bfsLoop, h, hcf, hfm]
      rw [if_neg hC]
      exact ⟨_, by rw [ht]⟩

theorem bfsLoop_counts_append (edges : List EdgeRow) (cf fm : Nat → Bool)
    (v : Bool) (fuel : Nat) (st : BfsState) :
    ∃ t, (bfsLoop edges cf fm v fuel st).counts = st.counts ++ t := by
  induction fuel, st using bfsLoop.induct edges cf fm v with
  | case1 st => exact ⟨[], by simp [bfsLoop]⟩
  | case2 fuel st h => exact ⟨[], by simp [bfsLoop, h]⟩
  | case3 fuel st h st1 hcf =>
      unfold_let st1 at hcf
      simp only [bfsHopSetup_dist] at hcf
      exact ⟨[], by simp [bfsLoop, h, hcf]⟩
  | case4 fuel st h st1 hcf hfm =>
      unfold_let st1 at hcf hfm
      simp only [bfsHopSetup_dist] at hcf hfm
      exact ⟨[], by simp [bfsLoop, h, hcf, hfm]⟩
  | case5 fuel st h st1 hcf hfm newNodes hnew =>
      unfold_let st1 at hcf hfm
      simp only [bfsHopSetup_dist] at hcf hfm
      unfold_let newNodes at hnew
      unfold_let st1 at hnew
      simp at hnew
      refine ⟨[], ?_⟩
      simp [bfsLoop, h, hcf, hfm]
      rw [if_pos hnew]
      simp
  | case6 fuel st h st1 hcf hfm newNodes hnew ih =>
      unfold_let st1 at hcf hfm
      simp only [bfsHopSetup_dist] at hcf hfm
      unfold_let newNodes at hnew ih
      unfold_let st1 at hnew ih
      simp only [bfsHopSetup_visited] at hnew
      have hC : ¬ ∀ a ∈ expand edges (bfsHopSetup v st).frontier, a ∈ st.visited := by
        intro hall
        apply hnew
        rw [List.length_eq_zero, List.filter_eq_nil_iff]
        intro a ha
        simp [hall a ha]
      obtain ⟨t, ht⟩ := ih
      simp at ht
      simp [bfsLoop, h, hcf, hfm]
      rw [if_neg hC]
      exact ⟨_, by rw [ht]⟩

theorem bfsLoop_layers_append (edges : List EdgeRow) (cf fm : Nat → Bool)
    (v : Bool) (fuel : Nat) (st : BfsState) :
    ∃ t, (bfsLoop edges cf fm v fuel st).layers = st.layers ++ t := by
  induction fuel, st using bfsLoop.induct edges cf fm v with
  | case1 st => exact ⟨[], by simp [bfsLoop]⟩
  | case2 fuel st h => exact ⟨[], by simp [bfsLoop, h]⟩
  | case3 fuel st h st1 hcf =>
      unfold_let st1 at hcf
      simp only [bfsHopSetup_dist] at hcf
      exact ⟨[], by simp [bfsLoop, h, hcf]⟩
  | case4 fuel st h st1 hcf hfm =>
      unfold_let st1 at hcf hfm
      simp only [bfsHopSetup_dist] at hcf hfm
      exact ⟨[], by simp [bfsLoop, h, hcf, hfm]⟩
  | case5 fuel st h st1 hcf hfm newNodes hnew =>
      unfold_let st1 at hcf hfm
      simp only [bfsHopSetup_dist] at hcf hfm
      unfold_let newNodes at hnew
      unfold_let st1 at hnew
      simp at hnew
      refine ⟨[], ?_⟩
      simp [bfsLoop, h, hcf, hfm]
      rw [if_pos hnew]
      simp
  | case6 fuel st h st1 hcf hfm newNodes hnew ih =>
      unfold_let st1 at hcf hfm
      simp only [bfsHopSetup_dist] at hcf hfm
      unfold_let newNodes at hnew ih
      unfold_let st1 at hnew ih
      simp only [bfsHopSetup_visited] at hnew
      have hC : ¬ ∀ a ∈ expand edges (bfsHopSetup v st).frontier, a ∈ st.visited := by
        intro hall
        apply hnew
        rw [List.length_eq_zero, List.filter_eq_nil_iff]
        intro a ha
        simp [hall a ha]
      obtain ⟨t, ht⟩ := ih
      simp at ht
      simp [bfsLoop, h, hcf, hfm]
      rw [if_neg hC]
      exact ⟨_, by rw [ht]⟩

theorem bfsLoop_truncated_mono (edges : List EdgeRow) (cf fm : Nat → Bool)
    (v : Bool) (fuel : Nat) (st : BfsState) (htr : st.truncated = true) :
    (bfsLoop edges cf fm v fuel st).truncated = true := by
  induction fuel, st using bfsLoop.induct edges cf fm v with
  | case1 st => simpa [bfsLoop] using htr
  | case2 fuel st h => simpa [bfsLoop, h] using htr
  | case3 fuel st h st1 hcf =>
      unfold_let st1 at hcf
      simp only [bfsHopSetup_dist] at hcf
      simp [bfsLoop, h, hcf, bfsHopSetup, htr]
  | case4 fuel st h st1 hcf hfm =>
      unfold_let st1 at hcf hfm
      simp only [bfsHopSetup_dist] at hcf hfm
      simp [bfsLoop, h, hcf, hfm, bfsHopSetup, htr]
  | case5 fuel st h st1 hcf hfm newNodes hnew =>
      unfold_let st1 at hcf hfm
      simp only [bfsHopSetup_dist] at hcf hfm
      unfold_let newNodes at hnew
      unfold_let st1 at hnew
      simp at hnew
      simp [bfsLoop, h, hcf, hfm]
      rw [if_pos hnew]
      simp [bfsHopSetup, htr]
  | case6 fuel st h st1 hcf hfm newNodes hnew ih =>
      unfold_let st1 at hcf hfm
      simp only [bfsHopSetup_dist] at hcf hfm
      unfold_let newNodes at hnew ih
      unfold_let st1 at hnew ih
      simp only [bfsHopSetup_visited] at hnew
      have hC : ¬ ∀ a ∈ expand edges (bfsHopSetup v st).frontier, a ∈ st.visited := by
        intro hall
        apply hnew
        rw [List.length_eq_zero, List.filter_eq_nil_iff]
        intro a ha
        simp [hall a ha]
      simp at ih
      simp [bfsLoop, h, hcf, hfm]
      rw [if_neg hC]
      exact ih (bfsHopSetup_truncated_mono v st htr)

theorem bfsLoop_log_not_verbose (edges : List EdgeRow) (cf fm : Nat → Bool)
    (fuel : Nat) (st : BfsState) :
    (bfsLoop edges cf fm false fuel st).log = st.log := by
  induction fuel, st using bfsLoop.induct edges cf fm false with
  | case1 st => simp [bfsLoop]
  | case2 fuel st h => simp [bfsLoop, h]
  | case3 fuel st h st1 hcf =>
      unfold_let st1 at hcf
      simp only [bfsHopSetup_dist] at hcf
      simp [bfsLoop, h, hcf]
  | case4 fuel st h st1 hcf hfm =>
      unfold_let st1 at hcf hfm
      simp only [bfsHopSetup_dist] at hcf hfm
      simp [bfsLoop, h, hcf, hfm]
  | case5 fuel st h st1 hcf hfm newNodes hnew =>
      unfold_let st1 at hcf hfm
      simp only [bfsHopSetup_dist] at hcf hfm
      unfold_let newNodes at hnew
      unfold_let st1 at hnew
      simp at hnew
      simp [bfsLoop, h, hcf, hfm]
      rw [if_pos hnew]
      simp
  | case6 fuel st h st1 hcf hfm newNodes hnew ih =>
      unfold_let st1 at hcf hfm
      simp only [bfsHopSetup_dist] at hcf hfm
      unfold_let newNodes at hnew ih
      unfold_let st1 at hnew ih
      simp only [bfsHopSetup_visited] at hnew
      have hC : ¬ ∀ a ∈ expand edges (bfsHopSetup false st).frontier, a ∈ st.visited := by
        intro hall
        apply hnew
        rw [List.length_eq_zero, List.filter_eq_nil_iff]
        intro a ha
        simp [hall a ha]
      simp at ih
      simp [bfsLoop, h, hcf, hfm]
      rw [if_neg hC]
      exact ih

theorem bfsLoop_iter_le (edges : List EdgeRow) (cf fm : Nat → Bool)
    (v : Bool) (fuel : Nat) (st : BfsState) :
    (bfsLoop edges cf fm v fuel st).iter ≤ st.iter + fuel := by
  induction fuel, st using bfsLoop.induct edges cf fm v with
  | case1 st => simp [bfsLoop]
  | case2 fuel st h => simp [bfsLoop, h]
  | case3 fuel st h st1 hcf =>
      unfold_let st1 at hcf
      simp only [bfsHopSetup_dist] at hcf
      simp [bfsLoop, h, hcf]
  | case4 fuel st h st1 hcf hfm =>
      unfold_let st1 at hcf hfm
      simp only [bfsHopSetup_dist] at hcf hfm
      simp [bfsLoop, h, hcf, hfm]
  | case5 fuel st h st1 hcf hfm newNodes hnew =>
      unfold_let st1 at hcf hfm
      simp only [bfsHopSetup_dist] at hcf hfm
      unfold_let newNodes at hnew
      unfold_let st1 at hnew
      simp at hnew
      simp [bfsLoop, h, hcf, hfm]
      rw [if_pos hnew]
      simp
  | case6 fuel st h st1 hcf hfm newNodes hnew ih =>
      unfold_let st1 at hcf hfm
      simp only [bfsHopSetup_dist] at hcf hfm
      unfold_let newNodes at hnew ih
      unfold_let st1 at hnew ih
      simp only [bfsHopSetup_visited] at hnew
      have hC : ¬ ∀ a ∈ expand edges (bfsHopSetup v st).frontier, a ∈ st.visited := by
        intro hall
        apply hnew
        rw [List.length_eq_zero, List.filter_eq_nil_iff]
        intro a ha
        simp [hall a ha]
      simp at ih
      simp [bfsLoop, h, hcf, hfm]
      rw [if_neg hC]
      omega

/-! Reachability lemmas. -/

theorem mem_succsF {edges : List EdgeRow} {s : Finset Nat} {x : Nat} :
    x ∈ succsF edges s ↔ ∃ a, (a, x) ∈ edges ∧ a ∈ s := by
  simp only [succsF, List.mem_toFinset, List.mem_map, List.mem_filter,
    decide_eq_true_eq]
  constructor
  · rintro ⟨e, ⟨he, hs⟩, rfl⟩
    exact ⟨e.1, by simpa using he, hs⟩
  · rintro ⟨a, ha, hs⟩
    exact ⟨(a, x), ⟨ha, hs⟩, rfl⟩

theorem succsF_mono {edges : List EdgeRow} {s t : Finset Nat}
    (h : s ⊆ t) : succsF edges s ⊆ succsF edges t := by
  intro x hx
  rw [mem_succsF] at hx ⊢
  obtain ⟨a, ha, hs⟩ := hx
  exact ⟨a, ha, h hs⟩

theorem succsF_union {edges : List EdgeRow} {s t : Finset Nat} :
    succsF edges (s ∪ t) = succsF edges s ∪ succsF edges t := by
  ext x
  simp only [mem_succsF, Finset.mem_union]
  constructor
  · rintro ⟨a, ha, hs | ht⟩
    · exact Or.inl ⟨a, ha, hs⟩
    · exact Or.inr ⟨a, ha, ht⟩
  · rintro (⟨a, ha, hs⟩ | ⟨a, ha, ht⟩)
    · exact ⟨a, ha, Or.inl hs⟩
    · exact ⟨a, ha, Or.inr ht⟩

theorem reach_subset_succ (edges : List EdgeRow) (s : Finset Nat) (k : Nat) :
    reach edges s k ⊆ reach edges s (k + 1) :=
  Finset.subset_union_left

theorem reach_mono (edges : List EdgeRow) (s : Finset Nat) {k m : Nat}
    (h : k ≤ m) : reach edges s k ⊆ reach edges s m := by
  induction m with
  | zero => simpa [Nat.le_zero.mp h]
  | succ m ih =>
    rcases Nat.lt_or_ge k (m + 1) with hk | hk
    · exact (ih (Nat.lt_succ_iff.mp hk)).trans (reach_subset_succ edges s m)
    · have : k = m + 1 := Nat.le_antisymm h hk
      subst this
      exact Finset.Subset.refl _

theorem succsF_reach_subset (edges : List EdgeRow) (s : Finset Nat) (k : Nat) :
    succsF edges (reach edges s k) ⊆ reach edges s (k + 1) :=
  Finset.subset_union_right

theorem newAt_subset_reach (edges : List EdgeRow) (s : Finset Nat) (d : Nat) :
    newAt edges s d ⊆ reach edges s d := by
  cases d with
  | zero => exact Finset.Subset.refl _
  | succ k => exact Finset.sdiff_subset

theorem reach_succ_split (edges : List EdgeRow) (s : Finset Nat) (d : Nat) :
    reach edges s (d + 1) = reach edges s d ∪ newAt edges s (d + 1) := by
  have : newAt edges s (d + 1) = reach edges s (d + 1) \ reach edges s d := rfl
  rw [this, Finset.union_sdiff_of_subset (reach_subset_succ edges s d)]

theorem newAt_succ (edges : List EdgeRow) (s : Finset Nat) (d : Nat) :
    newAt edges s (d + 1)
      = succsF edges (newAt edges s d) \ reach edges s d := by
  have hbase : newAt edges s (d + 1)
      = succsF edges (reach edges s d) \ reach edges s d := by
    show reach edges s (d + 1) \ reach edges s d = _
    show (reach edges s d ∪ succsF edges (reach edges s d)) \ reach edges s d = _
    ext x
    simp only [Finset.mem_sdiff, Finset.mem_union]
    tauto
  rw [hbase]
  cases d with
  | zero => rfl
  | succ e =>
    ext x
    simp only [Finset.mem_sdiff]
    constructor
    · rintro ⟨hx, hnr⟩
      refine ⟨?_, hnr⟩
      rw [reach_succ_split edges s e, succsF_union] at hx
      rcases Finset.mem_union.mp hx with hx1 | hx2
      · exact absurd (succsF_reach_subset edges s e hx1) hnr
      · exact hx2
    · rintro ⟨hx, hnr⟩
      exact ⟨succsF_mono (newAt_subset_reach edges s (e + 1)) hx, hnr⟩

theorem reach_succ_eq_union_succsF_newAt (edges : List EdgeRow)
    (s : Finset Nat) (d : Nat) :
    reach edges s d ∪ succsF edges (newAt edges s d) = reach edges s (d + 1) := by
  apply Finset.Subset.antisymm
  · apply Finset.union_subset (reach_subset_succ edges s d)
    exact (succsF_mono (newAt_subset_reach edges s d)).trans
      (succsF_reach_subset edges s d)
  · rw [reach_succ_split edges s d, newAt_succ edges s d]
    apply Finset.union_subset Finset.subset_union_left
    exact (Finset.sdiff_subset_sdiff (Finset.Subset.refl _)
      (Finset.empty_subset _)).trans (by simp [Finset.subset_union_right])

theorem hasDist_of_mem_newAt {edges : List EdgeRow} {s : Finset Nat} {n : Nat} :
    ∀ {d : Nat}, n ∈ newAt edges s d → hasDist edges s n d
  | 0, h => ⟨h, fun k hk => absurd hk (Nat.not_lt_zero k)⟩
  | d + 1, h => by
    have hmem := Finset.mem_sdiff.mp h
    refine ⟨hmem.1, fun k hk => ?_⟩
    intro hnk
    exact hmem.2 (reach_mono edges s (Nat.lt_succ_iff.mp hk) hnk)

/-! Bridges between the algorithm's lists and the reachability sets. -/

theorem toFinset_expand (edges : List EdgeRow) (l : List Nat) :
    (expand edges l).toFinset = succsF edges l.toFinset := by
  ext x
  simp only [expand, succsF, List.mem_toFinset, List.mem_dedup,
    List.mem_map, List.mem_filter, decide_eq_true_eq]

theorem toFinset_filter_not_mem (l v : List Nat) :
    (l.filter (fun n => decide (n ∉ v))).toFinset = l.toFinset \ v.toFinset := by
  ext x
  simp [List.mem_filter, Finset.mem_sdiff]

theorem mem_expand {edges : List EdgeRow} {l : List Nat} {x : Nat} :
    x ∈ expand edges l ↔ ∃ a, (a, x) ∈ edges ∧ a ∈ l := by
  simp only [expand, List.mem_dedup, List.mem_map, List.mem_filter,
    decide_eq_true_eq]
  constructor
  · rintro ⟨e, ⟨he, hs⟩, rfl⟩
    exact ⟨e.1, by simpa using he, hs⟩
  · rintro ⟨a, ha, hs⟩
    exact ⟨(a, x), ⟨ha, hs⟩, rfl⟩

theorem nodup_expand (edges : List EdgeRow) (l : List Nat) :
    (expand edges l).Nodup := List.nodup_dedup _

/-! Step equations for the loop. -/

theorem bfsLoop_succ_cmdFail (edges : List EdgeRow) (cf fm : Nat → Bool)
    (v : Bool) (fuel : Nat) (st : BfsState)
    (h : ¬ st.frontier.length = 0)
    (hcf : cf (bfsHopSetup v st).dist = true) :
    bfsLoop edges cf fm v (fuel + 1) st
      = { bfsHopSetup v st with
          cmdFailed := true,
          log := if v then (bfsHopSetup v st).log
                   ++ [BfsEvent.iterFail (bfsHopSetup v st).dist]
                 else (bfsHopSetup v st).log } := by
  rw [bfsLoop]
  simp only [if_neg h, if_pos hcf]

theorem bfsLoop_succ_fileMiss (edges : List EdgeRow) (cf fm : Nat → Bool)
    (v : Bool) (fuel : Nat) (st : BfsState)
    (h : ¬ st.frontier.length = 0)
    (hcf : ¬ cf (bfsHopSetup v st).dist = true)
    (hfm : fm (bfsHopSetup v st).dist = true) :
    bfsLoop edges cf fm v (fuel + 1) st
      = { bfsHopSetup v st with
          fileMissed := true,
          log := if v then (bfsHopSetup v st).log
                   ++ [BfsEvent.noOutput (bfsHopSetup v st).dist]
                 else (bfsHopSetup v st).log } := by
  rw [bfsLoop]
  simp only [if_neg h, if_neg hcf, if_pos hfm]

theorem bfsLoop_succ_emptyNew (edges : List EdgeRow) (cf fm : Nat → Bool)
    (v : Bool) (fuel : Nat) (st : BfsState)
    (h : ¬ st.frontier.length = 0)
    (hcf : ¬ cf (bfsHopSetup v st).dist = true)
    (hfm : ¬ fm (bfsHopSetup v st).dist = true)
    (hnew : (bfsNewNodes edges v st).length = 0) :
    bfsLoop edges cf fm v (fuel + 1) st = bfsHopSetup v st := by
  unfold bfsNewNodes at hnew
  rw [bfsLoop]
  simp only [if_neg h, if_neg hcf, if_neg hfm, if_pos hnew]

theorem bfsLoop_succ_continue (edges : List EdgeRow) (cf fm : Nat → Bool)
    (v : Bool) (fuel : Nat) (st : BfsState)
    (h : ¬ st.frontier.length = 0)
    (hcf : ¬ cf (bfsHopSetup v st).dist = true)
    (hfm : ¬ fm (bfsHopSetup v st).dist = true)
    (hnew : ¬ (bfsNewNodes edges v st).length = 0) :
    bfsLoop edges cf fm v (fuel + 1) st
      = bfsLoop edges cf fm v fuel (bfsHopNext edges v st) := by
  unfold bfsNewNodes at hnew
  rw [bfsLoop]
  simp only [if_neg h, if_neg hcf, if_neg hfm, if_neg hnew]
  rfl

/-- Level invariant of the BFS loop: starting from a state whose frontier is
exactly the set of nodes at distance `st.dist`, whose visited set is exactly
the ball of radius `st.dist`, and whose recorded layers are the spheres
`newAt 0 .. newAt st.dist`, a run in which no truncation occurred ends with
visited = some ball and with every recorded layer equal to the
corresponding sphere (whatever the failure oracles do). -/
theorem bfsLoop_layers_spec (edges : List EdgeRow) (s : Finset Nat)
    (cf fm : Nat → Bool) (v : Bool) (fuel : Nat) (st : BfsState)
    (htr : (bfsLoop edges cf fm v fuel st).truncated = false)
    (hfr : st.frontier.toFinset = newAt edges s st.dist)
    (hvis : st.visited.toFinset = reach edges s st.dist)
    (hlen : st.layers.length = st.dist + 1)
    (hlay : ∀ i, i < st.layers.length →
        (st.layers.getD i []).toFinset = newAt edges s i) :
    ∃ d2, (bfsLoop edges cf fm v fuel st).visited.toFinset = reach edges s d2
      ∧ (bfsLoop edges cf fm v fuel st).layers.length = d2 + 1
      ∧ ∀ i, i < (bfsLoop edges cf fm v fuel st).layers.length →
          ((bfsLoop edges cf fm v fuel st).layers.getD i []).toFinset
            = newAt edges s i := by
  induction fuel, st using bfsLoop.induct edges cf fm v with
  | case1 st =>
      exact ⟨st.dist, hvis, hlen, hlay⟩
  | case2 fuel st h =>
      rw [bfsLoop_frontier_nil edges cf fm v (fuel + 1) st h]
      exact ⟨st.dist, hvis, hlen, hlay⟩
  | case3 fuel st h st1 hcf =>
      unfold_let st1 at hcf
      rw [bfsLoop_succ_cmdFail edges cf fm v fuel st h hcf]
      exact ⟨st.dist, by simpa using hvis, by simpa using hlen,
        by simpa using hlay⟩
  | case4 fuel st h st1 hcf hfm =>
      unfold_let st1 at hcf hfm
      rw [bfsLoop_succ_fileMiss edges cf fm v fuel st h hcf hfm]
      exact ⟨st.dist, by simpa using hvis, by simpa using hlen,
        by simpa using hlay⟩
  | case5 fuel st h st1 hcf hfm newNodes hnew =>
      unfold_let st1 at hcf hfm
      unfold_let newNodes at hnew
      unfold_let st1 at hnew
      have hnew2 : (bfsNewNodes edges v st).length = 0 := hnew
      rw [bfsLoop_succ_emptyNew edges cf fm v fuel st h hcf hfm hnew2]
      exact ⟨st.dist, by simpa using hvis, by simpa using hlen,
        by simpa using hlay⟩
  | case6 fuel st h st1 hcf hfm newNodes hnew ih =>
      unfold_let st1 at hcf hfm
      unfold_let newNodes at hnew
      unfold_let st1 at hnew
      have hnew2 : ¬ (bfsNewNodes edges v st).length = 0 := hnew
      rw [bfsLoop_succ_continue edges cf fm v fuel st h hcf hfm hnew2] at htr ⊢
      have hsmall : ¬ 100000 < st.frontier.length := by
        intro hbig
        have h1 : (bfsHopNext edges v st).truncated = true := by
          show (bfsHopSetup v st).truncated = true
          exact bfsHopSetup_truncated_of_large v st hbig
        rw [bfsLoop_truncated_mono edges cf fm v fuel _ h1] at htr
        simp at htr
      have hHopFr : (bfsHopSetup v st).frontier = st.frontier :=
        bfsHopSetup_frontier_of_small v st hsmall
      have hNN : (bfsNewNodes edges v st).toFinset
          = newAt edges s (st.dist + 1) := by
        unfold bfsNewNodes
        rw [toFinset_filter_not_mem, toFinset_expand, hHopFr,
          bfsHopSetup_visited, hfr, hvis, newAt_succ]
      have hfr2 : (bfsHopNext edges v st).frontier.toFinset
          = newAt edges s (st.dist + 1) := hNN
      have hvis2 : (bfsHopNext edges v st).visited.toFinset
          = reach edges s (st.dist + 1) := by
        show ((bfsHopSetup v st).visited ++ bfsNewNodes edges v st).toFinset = _
        rw [List.toFinset_append, bfsHopSetup_visited, hvis, hNN,
          ← reach_succ_split]
      have hlen2 : (bfsHopNext edges v st).layers.length = (st.dist + 1) + 1 := by
        show ((bfsHopSetup v st).layers ++ [bfsNewNodes edges v st]).length = _
        simp [hlen]
      have hlay2 : ∀ i, i < (bfsHopNext edges v st).layers.length →
          ((bfsHopNext edges v st).layers.getD i []).toFinset
            = newAt edges s i := by
        intro i hi
        show ((st.layers ++ [bfsNewNodes edges v st]).getD i []).toFinset = _
        rcases Nat.lt_or_ge i st.layers.length with hlt | hge
        · rw [List.getD_append _ _ _ _ hlt]
          exact hlay i hlt
        · have hi2 : i = st.layers.length := by
            have hL : (bfsHopNext edges v st).layers.length
                = st.layers.length + 1 := by
              show ((bfsHopSetup v st).layers ++ [bfsNewNodes edges v st]).length = _
              simp
            omega
          subst hi2
          rw [List.getD_append_right _ _ _ _ (le_refl _), Nat.sub_self]
          simpa [hlen] using hNN
      exact ih htr hfr2 hvis2 hlen2 hlay2

/-- The visited list stays duplicate-free and is at all times the
concatenation of the recorded discovery layers. -/
theorem bfsLoop_nodup_flatten (edges : List EdgeRow) (cf fm : Nat → Bool)
    (v : Bool) (fuel : Nat) (st : BfsState)
    (hnd : st.visited.Nodup) (hjoin : st.visited = st.layers.flatten) :
    (bfsLoop edges cf fm v fuel st).visited.Nodup
      ∧ (bfsLoop edges cf fm v fuel st).visited
        = (bfsLoop edges cf fm v fuel st).layers.flatten := by
  induction fuel, st using bfsLoop.induct edges cf fm v with
  | case1 st => exact ⟨hnd, hjoin⟩
  | case2 fuel st h =>
      rw [bfsLoop_frontier_nil edges cf fm v (fuel + 1) st h]
      exact ⟨hnd, hjoin⟩
  | case3 fuel st h st1 hcf =>
      unfold_let st1 at hcf
      rw [bfsLoop_succ_cmdFail edges cf fm v fuel st h hcf]
      exact ⟨by simpa using hnd, by simpa using hjoin⟩
  | case4 fuel st h st1 hcf hfm =>
      unfold_let st1 at hcf hfm
      rw [bfsLoop_succ_fileMiss edges cf fm v fuel st h hcf hfm]
      exact ⟨by simpa using hnd, by simpa using hjoin⟩
  | case5 fuel st h st1 hcf hfm newNodes hnew =>
      unfold_let st1 at hcf hfm
      unfold_let newNodes at hnew
      unfold_let st1 at hnew
      have hnew2 : (bfsNewNodes edges v st).length = 0 := hnew
      rw [bfsLoop_succ_emptyNew edges cf fm v fuel st h hcf hfm hnew2]
      exact ⟨by simpa using hnd, by simpa using hjoin⟩
  | case6 fuel st h st1 hcf hfm newNodes hnew ih =>
      unfold_let st1 at hcf hfm
      unfold_let newNodes at hnew
      unfold_let st1 at hnew
      have hnew2 : ¬ (bfsNewNodes edges v st).length = 0 := hnew
      rw [bfsLoop_succ_continue edges cf fm v fuel st h hcf hfm hnew2]
      have hNNnd : (bfsNewNodes edges v st).Nodup := by
        unfold bfsNewNodes
        exact (nodup_expand edges _).filter _
      have hdisj : st.visited.Disjoint (bfsNewNodes edges v st) := by
        intro a ha1 ha2
        unfold bfsNewNodes at ha2
        have := List.of_mem_filter ha2
        simp only [bfsHopSetup_visited, decide_eq_true_eq] at this
        exact this ha1
      have hnd2 : (bfsHopNext edges v st).visited.Nodup := by
        show ((bfsHopSetup v st).visited ++ bfsNewNodes edges v st).Nodup
        rw [bfsHopSetup_visited]
        exact hnd.append hNNnd hdisj
      have hjoin2 : (bfsHopNext edges v st).visited
          = (bfsHopNext edges v st).layers.flatten := by
        show (bfsHopSetup v st).visited ++ bfsNewNodes edges v st
          = ((bfsHopSetup v st).layers ++ [bfsNewNodes edges v st]).flatten
        rw [bfsHopSetup_visited, bfsHopSetup_layers, hjoin]
        simp
      exact ih hnd2 hjoin2

/-- Iteration-count bound: every continuing hop strictly grows the visited
list inside the finite id universe `ids`, so the final iteration count plus
the current visited size is bounded. -/
theorem visited_length_le_card (ids : Finset Nat) (l : List Nat)
    (hnd : l.Nodup) (hsub : ∀ x ∈ l, x ∈ ids) : l.length ≤ ids.card := by
  rw [← List.toFinset_card_of_nodup hnd]
  apply Finset.card_le_card
  intro x hx
  exact hsub x (List.mem_toFinset.mp hx)

theorem bfsLoop_iter_card_bound (edges : List EdgeRow) (cf fm : Nat → Bool)
    (v : Bool) (ids : Finset Nat) (hedge : ∀ e ∈ edges, e.2 ∈ ids)
    (fuel : Nat) (st : BfsState)
    (hnd : st.visited.Nodup) (hsub : ∀ x ∈ st.visited, x ∈ ids) :
    (bfsLoop edges cf fm v fuel st).iter + st.visited.length
      ≤ st.iter + 1 + ids.card := by
  induction fuel, st using bfsLoop.induct edges cf fm v with
  | case1 st =>
      have hvl := visited_length_le_card ids st.visited hnd hsub
      simp only [bfsLoop]; omega
  | case2 fuel st h =>
      have hvl := visited_length_le_card ids st.visited hnd hsub
      rw [bfsLoop_frontier_nil edges cf fm v (fuel + 1) st h]
      omega
  | case3 fuel st h st1 hcf =>
      unfold_let st1 at hcf
      rw [bfsLoop_succ_cmdFail edges cf fm v fuel st h hcf]
      have : ({ bfsHopSetup v st with
          cmdFailed := true,
          log := if v then (bfsHopSetup v st).log
                   ++ [BfsEvent.iterFail (bfsHopSetup v st).dist]
                 else (bfsHopSetup v st).log } : BfsState).iter
          = st.iter + 1 := rfl
      have hvl := visited_length_le_card ids st.visited hnd hsub
      omega
  | case4 fuel st h st1 hcf hfm =>
      unfold_let st1 at hcf hfm
      rw [bfsLoop_succ_fileMiss edges cf fm v fuel st h hcf hfm]
      have : ({ bfsHopSetup v st with
          fileMissed := true,
          log := if v then (bfsHopSetup v st).log
                   ++ [BfsEvent.noOutput (bfsHopSetup v st).dist]
                 else (bfsHopSetup v st).log } : BfsState).iter
          = st.iter + 1 := rfl
      have hvl := visited_length_le_card ids st.visited hnd hsub
      omega
  | case5 fuel st h st1 hcf hfm newNodes hnew =>
      unfold_let st1 at hcf hfm
      unfold_let newNodes at hnew
      unfold_let st1 at hnew
      have hnew2 : (bfsNewNodes edges v st).length = 0 := hnew
      rw [bfsLoop_succ_emptyNew edges cf fm v fuel st h hcf hfm hnew2]
      have : (bfsHopSetup v st).iter = st.iter + 1 := rfl
      have hvl := visited_length_le_card ids st.visited hnd hsub
      omega
  | case6 fuel st h st1 hcf hfm newNodes hnew ih =>
      unfold_let st1 at hcf hfm
      unfold_let newNodes at hnew
      unfold_let st1 at hnew
      have hnew2 : ¬ (bfsNewNodes edges v st).length = 0 := hnew
      rw [bfsLoop_succ_continue edges cf fm v fuel st h hcf hfm hnew2]
      have hNNnd : (bfsNewNodes edges v st).Nodup := by
        unfold bfsNewNodes
        exact (nodup_expand edges _).filter _
      have hdisj : st.visited.Disjoint (bfsNewNodes edges v st) := by
        intro a ha1 ha2
        unfold bfsNewNodes at ha2
        have := List.of_mem_filter ha2
        simp only [bfsHopSetup_visited, decide_eq_true_eq] at this
        exact this ha1
      have hnd2 : (bfsHopNext edges v st).visited.Nodup := by
        show ((bfsHopSetup v st).visited ++ bfsNewNodes edges v st).Nodup
        rw [bfsHopSetup_visited]
        exact hnd.append hNNnd hdisj
      have hsub2 : ∀ x ∈ (bfsHopNext edges v st).visited, x ∈ ids := by
        intro x hx
        have hx2 : x ∈ (bfsHopSetup v st).visited ++ bfsNewNodes edges v st := hx
        rcases List.mem_append.mp hx2 with hx3 | hx3
        · exact hsub x (by simpa using hx3)
        · unfold bfsNewNodes at hx3
          have hx4 := List.mem_of_mem_filter hx3
          obtain ⟨a, ha, _⟩ := mem_expand.mp hx4
          exact hedge (a, x) ha
      have hlen2 : (bfsHopNext edges v st).visited.length
          = st.visited.length + (bfsNewNodes edges v st).length := by
        show ((bfsHopSetup v st).visited ++ bfsNewNodes edges v st).length = _
        simp
      have hiter2 : (bfsHopNext edges v st).iter = st.iter + 1 := rfl
      have hpos : 0 < (bfsNewNodes edges v st).length := Nat.pos_of_ne_zero hnew2
      have ih2 : (bfsLoop edges cf fm v fuel (bfsHopNext edges v st)).iter
          + (bfsHopNext edges v st).visited.length
          ≤ (bfsHopNext edges v st).iter + 1 + ids.card := ih hnd2 hsub2
      omega

/-- `distance_counts` bookkeeping: its keys are always `0, 1, ..., len-1`
in order, the length stays `current_distance + 1` on continuing paths, and
the visited size equals the sum of the recorded counts. -/
theorem bfsLoop_counts_spec (edges : List EdgeRow) (cf fm : Nat → Bool)
    (v : Bool) (fuel : Nat) (st : BfsState)
    (hkeys : st.counts.map Prod.fst = List.range st.counts.length)
    (hdist : st.counts.length = st.dist + 1)
    (hsum : st.visited.length = (st.counts.map Prod.snd).sum) :
    (bfsLoop edges cf fm v fuel st).counts.map Prod.fst
        = List.range (bfsLoop edges cf fm v fuel st).counts.length
      ∧ (bfsLoop edges cf fm v fuel st).visited.length
        = ((bfsLoop edges cf fm v fuel st).counts.map Prod.snd).sum := by
  induction fuel, st using bfsLoop.induct edges cf fm v with
  | case1 st => exact ⟨hkeys, hsum⟩
  | case2 fuel st h =>
      rw [bfsLoop_frontier_nil edges cf fm v (fuel + 1) st h]
      exact ⟨hkeys, hsum⟩
  | case3 fuel st h st1 hcf =>
      unfold_let st1 at hcf
      rw [bfsLoop_succ_cmdFail edges cf fm v fuel st h hcf]
      exact ⟨by simpa using hkeys, by simpa using hsum⟩
  | case4 fuel st h st1 hcf hfm =>
      unfold_let st1 at hcf hfm
      rw [bfsLoop_succ_fileMiss edges cf fm v fuel st h hcf hfm]
      exact ⟨by simpa using hkeys, by simpa using hsum⟩
  | case5 fuel st h st1 hcf hfm newNodes hnew =>
      unfold_let st1 at hcf hfm
      unfold_let newNodes at hnew
      unfold_let st1 at hnew
      have hnew2 : (bfsNewNodes edges v st).length = 0 := hnew
      rw [bfsLoop_succ_emptyNew edges cf fm v fuel st h hcf hfm hnew2]
      exact ⟨by simpa using hkeys, by simpa using hsum⟩
  | case6 fuel st h st1 hcf hfm newNodes hnew ih =>
      unfold_let st1 at hcf hfm
      unfold_let newNodes at hnew
      unfold_let st1 at hnew
      have hnew2 : ¬ (bfsNewNodes edges v st).length = 0 := hnew
      rw [bfsLoop_succ_continue edges cf fm v fuel st h hcf hfm hnew2]
      have hkeys2 : (bfsHopNext edges v st).counts.map Prod.fst
          = List.range (bfsHopNext edges v st).counts.length := by
        show ((bfsHopSetup v st).counts
            ++ [((bfsHopSetup v st).dist, (bfsNewNodes edges v st).length)]).map Prod.fst
          = List.range ((bfsHopSetup v st).counts
            ++ [((bfsHopSetup v st).dist, (bfsNewNodes edges v st).length)]).length
        rw [List.map_append, List.length_append]
        simp only [bfsHopSetup_counts, bfsHopSetup_dist, List.map_cons,
          List.map_nil, List.length_cons, List.length_nil]
        rw [hkeys, hdist]
        simp [List.range_succ]
      have hdist2 : (bfsHopNext edges v st).counts.length
          = (bfsHopNext edges v st).dist + 1 := by
        show ((bfsHopSetup v st).counts
            ++ [((bfsHopSetup v st).dist, (bfsNewNodes edges v st).length)]).length
          = (bfsHopSetup v st).dist + 1
        simp [hdist]
      have hsum2 : (bfsHopNext edges v st).visited.length
          = ((bfsHopNext edges v st).counts.map Prod.snd).sum := by
        show ((bfsHopSetup v st).visited ++ bfsNewNodes edges v st).length
          = (((bfsHopSetup v st).counts
            ++ [((bfsHopSetup v st).dist, (bfsNewNodes edges v st).length)]).map Prod.snd).sum
        rw [List.length_append, List.map_append, List.sum_append]
        simp only [bfsHopSetup_visited, bfsHopSetup_counts]
        simp [hsum]
      exact ih hkeys2 hdist2 hsum2

/-- Until the first hop at which an oracle reports a failure, a run is
identical to the failure-free run; at the failing hop it stops with exactly
the counts recorded so far.  Hence its `distance_counts` is the
failure-free run's table truncated to the first `k` distances. -/
theorem bfsLoop_counts_firstFail (edges : List EdgeRow) (cf fm : Nat → Bool)
    (v : Bool) (k : Nat)
    (hlow : ∀ d, d < k → cf d = false ∧ fm d = false)
    (hk : (cf k || fm k) = true) (fuel : Nat) (st : BfsState)
    (hdist : st.counts.length = st.dist + 1) (hlt : st.dist < k) :
    (bfsLoop edges cf fm v fuel st).counts
      = (bfsLoop edges (fun _ => false) (fun _ => false) v fuel st).counts.take k := by
  induction fuel, st using bfsLoop.induct edges cf fm v with
  | case1 st =>
      simp only [bfsLoop]
      rw [List.take_of_length_le (by omega)]
  | case2 fuel st h =>
      rw [bfsLoop_frontier_nil edges cf fm v (fuel + 1) st h,
        bfsLoop_frontier_nil edges (fun _ => false) (fun _ => false) v (fuel + 1) st h]
      rw [List.take_of_length_le (by omega)]
  | case3 fuel st h st1 hcf =>
      unfold_let st1 at hcf
      have hd : (bfsHopSetup v st).dist = k := by
        have h1 : ¬ (bfsHopSetup v st).dist < k := by
          intro hlt2
          rw [(hlow _ hlt2).1] at hcf
          exact Bool.false_ne_true hcf
        have h2 : (bfsHopSetup v st).dist = st.dist + 1 := rfl
        omega
      rw [bfsLoop_succ_cmdFail edges cf fm v fuel st h hcf]
      obtain ⟨t, ht⟩ := bfsLoop_counts_append edges (fun _ => false)
        (fun _ => false) v (fuel + 1) st
      rw [ht]
      have hcounts : ({ bfsHopSetup v st with
          cmdFailed := true,
          log := if v then (bfsHopSetup v st).log
                   ++ [BfsEvent.iterFail (bfsHopSetup v st).dist]
                 else (bfsHopSetup v st).log } : BfsState).counts
          = st.counts := rfl
      rw [hcounts]
      have hlen : st.counts.length = k := by
        have : (bfsHopSetup v st).dist = st.dist + 1 := rfl
        omega
      rw [← hlen, List.take_left]
  | case4 fuel st h st1 hcf hfm =>
      unfold_let st1 at hcf hfm
      have hd : (bfsHopSetup v st).dist = k := by
        have h1 : ¬ (bfsHopSetup v st).dist < k := by
          intro hlt2
          rw [(hlow _ hlt2).2] at hfm
          exact Bool.false_ne_true hfm
        have h2 : (bfsHopSetup v st).dist = st.dist + 1 := rfl
        omega
      rw [bfsLoop_succ_fileMiss edges cf fm v fuel st h hcf hfm]
      obtain ⟨t, ht⟩ := bfsLoop_counts_append edges (fun _ => false)
        (fun _ => false) v (fuel + 1) st
      rw [ht]
      have hcounts : ({ bfsHopSetup v st with
          fileMissed := true,
          log := if v then (bfsHopSetup v st).log
                   ++ [BfsEvent.noOutput (bfsHopSetup v st).dist]
                 else (bfsHopSetup v st).log } : BfsState).counts
          = st.counts := rfl
      rw [hcounts]
      have hlen : st.counts.length = k := by
        have : (bfsHopSetup v st).dist = st.dist + 1 := rfl
        omega
      rw [← hlen, List.take_left]
  | case5 fuel st h st1 hcf hfm newNodes hnew =>
      unfold_let st1 at hcf hfm
      unfold_let newNodes at hnew
      unfold_let st1 at hnew
      have hnew2 : (bfsNewNodes edges v st).length = 0 := hnew
      rw [bfsLoop_succ_emptyNew edges cf fm v fuel st h hcf hfm hnew2,
        bfsLoop_succ_emptyNew edges (fun _ => false) (fun _ => false) v fuel st h
          (by simp) (by simp) hnew2]
      have hlen2 : (bfsHopSetup v st).counts.length ≤ k := by
        have : (bfsHopSetup v st).counts = st.counts := rfl
        rw [this]
        omega
      rw [List.take_of_length_le hlen2]
  | case6 fuel st h st1 hcf hfm newNodes hnew ih =>
      unfold_let st1 at hcf hfm
      unfold_let newNodes at hnew
      unfold_let st1 at hnew
      have hnew2 : ¬ (bfsNewNodes edges v st).length = 0 := hnew
      rw [bfsLoop_succ_continue edges cf fm v fuel st h hcf hfm hnew2,
        bfsLoop_succ_continue edges (fun _ => false) (fun _ => false) v fuel st h
          (by simp) (by simp) hnew2]
      have hne : ¬ (bfsHopSetup v st).dist = k := by
        intro he
        rw [he] at hcf hfm
        rcases (by simpa using hk : cf k = true ∨ fm k = true) with h1 | h1
        · exact hcf h1
        · exact hfm h1
      have hdist2 : (bfsHopNext edges v st).counts.length
          = (bfsHopNext edges v st).dist + 1 := by
        show ((bfsHopSetup v st).counts
            ++ [((bfsHopSetup v st).dist, (bfsNewNodes edges v st).length)]).length
          = (bfsHopSetup v st).dist + 1
        simp [hdist]
      have hlt2 : (bfsHopNext edges v st).dist < k := by
        have h1 : (bfsHopNext edges v st).dist = st.dist + 1 := rfl
        have h2 : (bfsHopSetup v st).dist = st.dist + 1 := rfl
        omega
      exact ih hdist2 hlt2

/-! Facts about the initial state and seeds. -/

theorem seedsOf_subset (nodes : List NodeRow) (c : Nat) :
    ∀ x ∈ seedsOf nodes c, x ∈ nodes.map Prod.fst := by
  intro x hx
  obtain ⟨r, hr, rfl⟩ := List.mem_map.mp hx
  exact List.mem_map.mpr ⟨r, List.mem_of_mem_filter hr, rfl⟩

theorem seedsOf_nodup (nodes : List NodeRow) (c : Nat)
    (hnd : (nodes.map Prod.fst).Nodup) : (seedsOf nodes c).Nodup :=
  hnd.sublist ((List.filter_sublist nodes).map Prod.fst)

theorem foldl_max_range : ∀ n : Nat, (List.range n).foldl max 0 = n - 1
  | 0 => rfl
  | n + 1 => by
    rw [List.range_succ, List.foldl_append, foldl_max_range n]
    simp only [List.foldl_cons, List.foldl_nil]
    omega

/-! ### C2 -/

/-- C2: the visited set only grows across the loop (it is always extended,
never rewritten), the final visited list is duplicate-free and is exactly
the concatenation of the per-distance discovery layers, and the layers are
pairwise disjoint — so a node is recorded at exactly one distance and is
never re-added, whatever the inputs, hop failures, or truncations. -/
theorem claim_C2 :
    (∀ (edges : List EdgeRow) (cf fm : Nat → Bool) (v : Bool)
        (fuel : Nat) (st : BfsState),
      ∃ t, (bfsLoop edges cf fm v fuel st).visited = st.visited ++ t)
    ∧ (∀ (nodes : List NodeRow) (edges : List EdgeRow) (c mh : Nat)
        (cf fm : Nat → Bool) (v : Bool),
      (bfsRunState nodes edges c mh cf fm v).visited.Nodup
      ∧ (bfsRunState nodes edges c mh cf fm v).visited
          = (bfsRunState nodes edges c mh cf fm v).layers.flatten
      ∧ List.Pairwise List.Disjoint (bfsRunState nodes edges c mh cf fm v).layers) := by
  refine ⟨bfsLoop_visited_append, ?_⟩
  intro nodes edges c mh cf fm v
  have hinit_nd : (bfsInit nodes c).visited.Nodup := List.nodup_dedup _
  have hinit_join : (bfsInit nodes c).visited
      = (bfsInit nodes c).layers.flatten := by
    show (seedsOf nodes c).dedup
      = ([(seedsOf nodes c).dedup] : List (List Nat)).flatten
    simp
  obtain ⟨hnd, hjoin⟩ := bfsLoop_nodup_flatten edges cf fm v mh
    (bfsInit nodes c) hinit_nd hinit_join
  exact ⟨hnd, hjoin, (List.nodup_flatten.mp (hjoin ▸ hnd)).2⟩

/-! ### C3 -/

/-- C3 counterexample: a run that converges normally (single seed, no
edges) and a run that stops early because the hop-1 expansion command
failed (single seed, one outgoing edge that would have been discovered)
return identical result dictionaries, so the returned result carries no
flag letting the caller distinguish "converged" from "stopped early due to
error" — only the instrumented `cmdFailed` state, which corresponds to
nothing in the Python return value, differs. -/
theorem claim_C3_counterexample :
    iterative_bfs_sirius [(0, 1)] [] 1 20 (fun _ => false) (fun _ => false) false
        = iterative_bfs_sirius [(0, 1)] [(0, 5)] 1 20 (fun d => decide (d = 1))
            (fun _ => false) false
    ∧ (bfsRunState [(0, 1)] [] 1 20 (fun _ => false) (fun _ => false) false).cmdFailed
        = false
    ∧ (bfsRunState [(0, 1)] [(0, 5)] 1 20 (fun d => decide (d = 1))
        (fun _ => false) false).cmdFailed = true := by
  refine ⟨by decide, by decide, by decide⟩

/-- C3 (amended): when the expansion command of the hop at distance `k`
fails (and earlier hops did not), `iterative_bfs_sirius` still returns
normally, and its `distances` table is exactly the failure-free run's table
truncated to the distances computed before the failing hop — a partial
result; but no field of the returned result distinguishes this outcome from
normal convergence. -/
theorem claim_C3_amended (nodes : List NodeRow) (edges : List EdgeRow)
    (c maxHops k : Nat) (cf : Nat → Bool) (v : Bool)
    (hk1 : 1 ≤ k) (hlow : ∀ d, d < k → cf d = false) (hkf : cf k = true) :
    (iterative_bfs_sirius nodes edges c maxHops cf (fun _ => false) v).distances
      = (iterative_bfs_sirius nodes edges c maxHops (fun _ => false)
          (fun _ => false) v).distances.take k := by
  show (bfsRunState nodes edges c maxHops cf (fun _ => false) v).counts = _
  exact bfsLoop_counts_firstFail edges cf (fun _ => false) v k
    (fun d hd => ⟨hlow d hd, rfl⟩) (by simp [hkf]) maxHops (bfsInit nodes c)
    rfl (by show 0 < k; omega)

/-- Witness for C3's amended theorem: failure at hop 1 on a two-node path. -/
theorem claim_C3_witness :
    (iterative_bfs_sirius [(0, 1)] [(0, 5)] 1 20 (fun d => decide (d = 1))
        (fun _ => false) false).distances
      = (iterative_bfs_sirius [(0, 1)] [(0, 5)] 1 20 (fun _ => false)
          (fun _ => false) false).distances.take 1 :=
  claim_C3_amended [(0, 1)] [(0, 5)] 1 20 1 (fun d => decide (d = 1)) false
    (by decide) (fun d hd => by interval_cases d <;> decide) (by decide)

/-! ### C5 -/

/-- C5: the loop performs at most as many iterations as the graph has
distinct node ids (each continuing hop discovers at least one new node in
the id universe, given that edge targets are node ids), and never more than
`max_hops` iterations; on the isolated-seed graph it stops after hop 1
having found no new nodes (only the distance-0 bucket is recorded). -/
theorem claim_C5 :
    (∀ (nodes : List NodeRow) (edges : List EdgeRow) (c maxHops : Nat)
        (cf fm : Nat → Bool) (v : Bool),
      (∀ e ∈ edges, e.2 ∈ nodes.map Prod.fst) →
      (iterative_bfs_sirius nodes edges c maxHops cf fm v).iterations
          ≤ ((nodes.map Prod.fst).dedup).length
        ∧ (iterative_bfs_sirius nodes edges c maxHops cf fm v).iterations
          ≤ maxHops)
    ∧ ((iterative_bfs_sirius [(0, 1)] [] 1 20 (fun _ => false)
          (fun _ => false) false).iterations = 1
      ∧ (iterative_bfs_sirius [(0, 1)] [] 1 20 (fun _ => false)
          (fun _ => false) false).distances = [(0, 1)]) := by
  constructor
  · intro nodes edges c maxHops cf fm v hedge
    constructor
    · show (bfsRunState nodes edges c maxHops cf fm v).iter ≤ _
      by_cases hseed : seedsOf nodes c = []
      · have hrun : bfsRunState nodes edges c maxHops cf fm v
            = bfsInit nodes c := by
          apply bfsLoop_frontier_nil
          show (seedsOf nodes c).length = 0
          simp [hseed]
        rw [hrun]
        exact Nat.zero_le _
      · have hedge2 : ∀ e ∈ edges, e.2 ∈ (nodes.map Prod.fst).toFinset :=
          fun e he => List.mem_toFinset.mpr (hedge e he)
        have hsub : ∀ x ∈ (bfsInit nodes c).visited,
            x ∈ (nodes.map Prod.fst).toFinset := by
          intro x hx
          have hx2 : x ∈ (seedsOf nodes c).dedup := hx
          exact List.mem_toFinset.mpr
            (seedsOf_subset nodes c x (List.mem_dedup.mp hx2))
        have hb := bfsLoop_iter_card_bound edges cf fm v
          (nodes.map Prod.fst).toFinset hedge2 maxHops (bfsInit nodes c)
          (List.nodup_dedup _) hsub
        have e1 : (bfsInit nodes c).visited.length
            = (seedsOf nodes c).dedup.length := rfl
        have e2 : (bfsInit nodes c).iter = 0 := rfl
        have hpos : 1 ≤ (seedsOf nodes c).dedup.length := by
          have hne : (seedsOf nodes c).dedup ≠ [] := by
            simpa [List.dedup_eq_nil] using hseed
          exact List.length_pos.mpr hne
        have hcard : (nodes.map Prod.fst).toFinset.card
            = (nodes.map Prod.fst).dedup.length := List.card_toFinset _
        have hrs : (bfsRunState nodes edges c maxHops cf fm v).iter
            = (bfsLoop edges cf fm v maxHops (bfsInit nodes c)).iter := rfl
        omega
    · show (bfsRunState nodes edges c maxHops cf fm v).iter ≤ maxHops
      have := bfsLoop_iter_le edges cf fm v maxHops (bfsInit nodes c)
      have e2 : (bfsInit nodes c).iter = 0 := rfl
      have hrs : (bfsRunState nodes edges c maxHops cf fm v).iter
          = (bfsLoop edges cf fm v maxHops (bfsInit nodes c)).iter := rfl
      omega
  · exact ⟨by decide, by decide⟩

/-- Witness for C5 on the isolated-seed graph (the edge-target hypothesis
holds vacuously). -/
theorem claim_C5_witness :
    (iterative_bfs_sirius [(0, 1)] [] 1 20 (fun _ => false)
        (fun _ => false) false).iterations
      ≤ (([(0, 1)] : List NodeRow).map Prod.fst).dedup.length
    ∧ (iterative_bfs_sirius [(0, 1)] [] 1 20 (fun _ => false)
        (fun _ => false) false).iterations ≤ 20 :=
  claim_C5.1 [(0, 1)] [] 1 20 (fun _ => false) (fun _ => false) false
    (by decide)

/-! ### C6 -/

/-- C6 counterexample: with the default `verbose=False`, a run whose hop-1
result artifact is missing surfaces nothing — the run prints no warning
(its console log is empty) and returns a dictionary identical to that of a
clean converged run on the edgeless graph — so no degraded-result warning
is surfaced, contradicting the claim's conclusion; only the internal
missing-file marker (which corresponds to nothing in the Python return
value) distinguishes the two runs. -/
theorem claim_C6_counterexample :
    (bfsRunState [(0, 1)] [(0, 5)] 1 20 (fun _ => false)
        (fun d => decide (d = 1)) false).fileMissed = true
    ∧ (bfsRunState [(0, 1)] [(0, 5)] 1 20 (fun _ => false)
        (fun d => decide (d = 1)) false).log = []
    ∧ iterative_bfs_sirius [(0, 1)] [(0, 5)] 1 20 (fun _ => false)
        (fun d => decide (d = 1)) false
      = iterative_bfs_sirius [(0, 1)] [] 1 20 (fun _ => false)
          (fun _ => false) false :=
  ⟨by decide, by decide, by decide⟩

/-- C6 (amended): when the hop at distance `k` finds no exported result
file (and earlier hops did not fail), the run returns normally, without
crashing, with the distance table truncated at `k` — exactly what a
converged run that found nothing at distance `k` would report; the
no-output-file warning is surfaced only in verbose mode: every
non-verbose run ends with an empty console log, whatever the hop
outcomes.  On the concrete scenario (seed `0`, edge `0 → 5`, artifact
missing at hop 1, verbose) the run returns total 1, max distance 0,
`{0: 1}`, one iteration, records the internal missing-file marker, no
command failure, and prints the no-output-file warning. -/
theorem claim_C6_amended :
    (∀ (nodes : List NodeRow) (edges : List EdgeRow) (c maxHops k : Nat)
        (fm : Nat → Bool) (v : Bool),
      1 ≤ k → (∀ d, d < k → fm d = false) → fm k = true →
      (iterative_bfs_sirius nodes edges c maxHops (fun _ => false) fm v).distances
        = (iterative_bfs_sirius nodes edges c maxHops (fun _ => false)
            (fun _ => false) v).distances.take k)
    ∧ (∀ (nodes : List NodeRow) (edges : List EdgeRow) (c maxHops : Nat)
        (cf fm : Nat → Bool),
      (bfsRunState nodes edges c maxHops cf fm false).log = [])
    ∧ (bfsResult (bfsRunState [(0, 1)] [(0, 5)] 1 20 (fun _ => false)
          (fun d => decide (d = 1)) true) = ⟨1, 0, [(0, 1)], 1⟩
      ∧ (bfsRunState [(0, 1)] [(0, 5)] 1 20 (fun _ => false)
          (fun d => decide (d = 1)) true).fileMissed = true
      ∧ (bfsRunState [(0, 1)] [(0, 5)] 1 20 (fun _ => false)
          (fun d => decide (d = 1)) true).cmdFailed = false
      ∧ (bfsRunState [(0, 1)] [(0, 5)] 1 20 (fun _ => false)
          (fun d => decide (d = 1)) true).log = [BfsEvent.noOutput 1]) := by
  refine ⟨?_, ?_, by decide, by decide, by decide, by decide⟩
  · intro nodes edges c maxHops k fm v hk1 hlow hkf
    show (bfsRunState nodes edges c maxHops (fun _ => false) fm v).counts = _
    exact bfsLoop_counts_firstFail edges (fun _ => false) fm v k
      (fun d hd => ⟨rfl, hlow d hd⟩) (by simp [hkf]) maxHops (bfsInit nodes c)
      rfl (by show 0 < k; omega)
  · intro nodes edges c maxHops cf fm
    show (bfsLoop edges cf fm false maxHops (bfsInit nodes c)).log = []
    rw [bfsLoop_log_not_verbose]
    rfl

/-- Witness for C6's amended theorem: artifact missing at hop 1 on a
two-node path. -/
theorem claim_C6_witness :
    (iterative_bfs_sirius [(0, 1)] [(0, 5)] 1 20 (fun _ => false)
        (fun d => decide (d = 1)) false).distances
      = (iterative_bfs_sirius [(0, 1)] [(0, 5)] 1 20 (fun _ => false)
          (fun _ => false) false).distances.take 1 :=
  claim_C6_amended.1 [(0, 1)] [(0, 5)] 1 20 1 (fun d => decide (d = 1)) false
    (by decide) (fun d hd => by interval_cases d <;> decide) (by decide)

/-! ### C10 -/

/-- C10: for node tables with unique ids (the data-model invariant "nodes
keyed by id"), the returned `total_nodes` equals the sum of the
per-distance counts in `distances` (every visited node is counted in
exactly one bucket), the `distances` mapping is never empty (distance 0 is
always recorded), and `max_distance` is the largest key of the mapping —
whatever the failure oracles and hop outcomes. -/
theorem claim_C10 (nodes : List NodeRow) (edges : List EdgeRow)
    (c maxHops : Nat) (cf fm : Nat → Bool) (v : Bool)
    (hnd : (nodes.map Prod.fst).Nodup) :
    (iterative_bfs_sirius nodes edges c maxHops cf fm v).total_nodes
        = ((iterative_bfs_sirius nodes edges c maxHops cf fm v).distances.map
            Prod.snd).sum
      ∧ (iterative_bfs_sirius nodes edges c maxHops cf fm v).distances ≠ []
      ∧ (∀ p ∈ (iterative_bfs_sirius nodes edges c maxHops cf fm v).distances,
          p.1 ≤ (iterative_bfs_sirius nodes edges c maxHops cf fm v).max_distance)
      ∧ (iterative_bfs_sirius nodes edges c maxHops cf fm v).max_distance
          ∈ (iterative_bfs_sirius nodes edges c maxHops cf fm v).distances.map
              Prod.fst := by
  have hdedup : (seedsOf nodes c).dedup = seedsOf nodes c :=
    (seedsOf_nodup nodes c hnd).dedup
  have hkeys0 : (bfsInit nodes c).counts.map Prod.fst
      = List.range (bfsInit nodes c).counts.length := rfl
  have hdist0 : (bfsInit nodes c).counts.length = (bfsInit nodes c).dist + 1 :=
    rfl
  have hsum0 : (bfsInit nodes c).visited.length
      = ((bfsInit nodes c).counts.map Prod.snd).sum := by
    show (seedsOf nodes c).dedup.length
      = ([(0, (seedsOf nodes c).length)].map Prod.snd).sum
    rw [hdedup]
    rfl
  obtain ⟨hkeys0r, hsum0r⟩ := bfsLoop_counts_spec edges cf fm v maxHops
    (bfsInit nodes c) hkeys0 hdist0 hsum0
  have hkeys : (bfsRunState nodes edges c maxHops cf fm v).counts.map Prod.fst
      = List.range (bfsRunState nodes edges c maxHops cf fm v).counts.length :=
    hkeys0r
  have hsum : (bfsRunState nodes edges c maxHops cf fm v).visited.length
      = ((bfsRunState nodes edges c maxHops cf fm v).counts.map Prod.snd).sum :=
    hsum0r
  obtain ⟨t, ht⟩ := bfsLoop_counts_append edges cf fm v maxHops
    (bfsInit nodes c)
  have hcons : (bfsRunState nodes edges c maxHops cf fm v).counts
      = (0, (seedsOf nodes c).length) :: t := ht
  have hne : (bfsRunState nodes edges c maxHops cf fm v).counts ≠ [] := by
    rw [hcons]
    simp
  have hn1 : 1 ≤ (bfsRunState nodes edges c maxHops cf fm v).counts.length := by
    rw [hcons]
    simp
  have hmax : (iterative_bfs_sirius nodes edges c maxHops cf fm v).max_distance
      = (bfsRunState nodes edges c maxHops cf fm v).counts.length - 1 := by
    show (if (bfsRunState nodes edges c maxHops cf fm v).counts.isEmpty then 0
      else ((bfsRunState nodes edges c maxHops cf fm v).counts.map
        Prod.fst).foldl max 0) = _
    rw [hkeys, foldl_max_range]
    rw [hcons]
    rfl
  refine ⟨hsum, hne, ?_, ?_⟩
  · intro p hp
    have hp1 : p.1 ∈ (bfsRunState nodes edges c maxHops cf fm v).counts.map
        Prod.fst := List.mem_map.mpr ⟨p, hp, rfl⟩
    rw [hkeys, List.mem_range] at hp1
    rw [hmax]
    omega
  · rw [hmax]
    show _ ∈ (bfsRunState nodes edges c maxHops cf fm v).counts.map Prod.fst
    rw [hkeys, List.mem_range]
    omega

/-! ### C1 -/

/-- C1 (amended): the seed set is always contained in the final visited
set; and in any run in which the 100000-node frontier cap never fired,
every node recorded in the discovery layer for distance `i` is at graph
distance exactly `i` from the seed set (minimum number of edge traversals);
the concrete A/B/C scenario discovers A at distance 0 and B, C at
distance 1. -/
theorem claim_C1_amended :
    (∀ (nodes : List NodeRow) (edges : List EdgeRow) (c mh : Nat)
        (cf fm : Nat → Bool) (v : Bool),
      (∀ x ∈ seedsOf nodes c,
        x ∈ (bfsRunState nodes edges c mh cf fm v).visited)
      ∧ ((bfsRunState nodes edges c mh cf fm v).truncated = false →
        ∀ i n, i < (bfsRunState nodes edges c mh cf fm v).layers.length →
          n ∈ (bfsRunState nodes edges c mh cf fm v).layers.getD i [] →
          hasDist edges (seedsOf nodes c).toFinset n i))
    ∧ (bfsRunState [(0, 1), (1, 2), (2, 2)] [(0, 1), (1, 2), (0, 2)] 1 20
        (fun _ => false) (fun _ => false) false).layers = [[0], [1, 2]] := by
  constructor
  · intro nodes edges c mh cf fm v
    constructor
    · intro x hx
      obtain ⟨t, ht⟩ := bfsLoop_visited_append edges cf fm v mh
        (bfsInit nodes c)
      have ht2 : (bfsRunState nodes edges c mh cf fm v).visited
          = (seedsOf nodes c).dedup ++ t := ht
      rw [ht2]
      exact List.mem_append.mpr (Or.inl (List.mem_dedup.mpr hx))
    · intro htr i n hi hn
      have hfr0 : (bfsInit nodes c).frontier.toFinset
          = newAt edges (seedsOf nodes c).toFinset (bfsInit nodes c).dist := rfl
      have hvis0 : (bfsInit nodes c).visited.toFinset
          = reach edges (seedsOf nodes c).toFinset (bfsInit nodes c).dist := by
        show (seedsOf nodes c).dedup.toFinset = (seedsOf nodes c).toFinset
        ext x
        simp [List.mem_dedup]
      have hlen0 : (bfsInit nodes c).layers.length
          = (bfsInit nodes c).dist + 1 := rfl
      have hlay0 : ∀ j, j < (bfsInit nodes c).layers.length →
          ((bfsInit nodes c).layers.getD j []).toFinset
            = newAt edges (seedsOf nodes c).toFinset j := by
        intro j hj
        have hj0 : j = 0 := by
          have hx : (bfsInit nodes c).layers.length = 1 := rfl
          omega
        subst hj0
        show (seedsOf nodes c).dedup.toFinset = (seedsOf nodes c).toFinset
        ext x
        simp [List.mem_dedup]
      obtain ⟨d2, _, _, hlay⟩ := bfsLoop_layers_spec edges
        (seedsOf nodes c).toFinset cf fm v mh (bfsInit nodes c) htr hfr0
        hvis0 hlen0 hlay0
      have hlayR : ∀ j, j < (bfsRunState nodes edges c mh cf fm v).layers.length →
          (((bfsRunState nodes edges c mh cf fm v).layers.getD j []).toFinset)
            = newAt edges (seedsOf nodes c).toFinset j := hlay
      apply hasDist_of_mem_newAt
      rw [← hlayR i hi]
      exact List.mem_toFinset.mpr hn
  · decide

/-- Witness for C1's amended theorem on the A/B/C scenario: node 0 (A) is
visited, and node 2 (C), recorded in layer 1, has graph distance exactly 1
(discovered at hop 1 via the direct edge even though a longer path exists). -/
theorem claim_C1_witness :
    0 ∈ (bfsRunState [(0, 1), (1, 2), (2, 2)] [(0, 1), (1, 2), (0, 2)] 1 20
        (fun _ => false) (fun _ => false) false).visited
    ∧ hasDist [(0, 1), (1, 2), (0, 2)]
        (seedsOf [(0, 1), (1, 2), (2, 2)] 1).toFinset 2 1 :=
  ⟨(claim_C1_amended.1 [(0, 1), (1, 2), (2, 2)] [(0, 1), (1, 2), (0, 2)] 1 20
      (fun _ => false) (fun _ => false) false).1 0 (by decide),
   (claim_C1_amended.1 [(0, 1), (1, 2), (2, 2)] [(0, 1), (1, 2), (0, 2)] 1 20
      (fun _ => false) (fun _ => false) false).2 (by decide) 1 2 (by decide)
      (by decide)⟩

theorem seedsOf_bigNodes : seedsOf bigNodes 1 = List.range 100001 := by
  unfold seedsOf bigNodes
  rw [List.filter_map]
  simp only [Function.comp_def]
  simp
  show (List.range 100001).map (fun i : Nat => i) = List.range 100001
  exact List.map_id _

theorem bfsInit_bigNodes :
    bfsInit bigNodes 1
      = { visited := List.range 100001, counts := [(0, 100001)],
          frontier := List.range 100001, dist := 0, iter := 0,
          layers := [List.range 100001], truncated := false,
          cmdFailed := false, fileMissed := false, log := [] } := by
  have h1 : bfsInit bigNodes 1
      = { visited := (seedsOf bigNodes 1).dedup,
          counts := [(0, (seedsOf bigNodes 1).length)],
          frontier := seedsOf bigNodes 1, dist := 0, iter := 0,
          layers := [(seedsOf bigNodes 1).dedup], truncated := false,
          cmdFailed := false, fileMissed := false, log := [] } := rfl
  rw [h1, seedsOf_bigNodes, (List.nodup_range 100001).dedup, List.length_range]

theorem bigInit_frontier :
    (bfsInit bigNodes 1).frontier = List.range 100001 := by
  rw [bfsInit_bigNodes]

theorem bigInit_visited :
    (bfsInit bigNodes 1).visited = List.range 100001 := by
  rw [bfsInit_bigNodes]

theorem bigInit_counts :
    (bfsInit bigNodes 1).counts = [(0, 100001)] := by
  rw [bfsInit_bigNodes]

theorem bigInit_frontier_len :
    ¬ (bfsInit bigNodes 1).frontier.length = 0 := by
  rw [bigInit_frontier, List.length_range]
  omega

theorem bigInit_frontier_big :
    100000 < (bfsInit bigNodes 1).frontier.length := by
  rw [bigInit_frontier, List.length_range]
  omega

theorem bigSetup_frontier :
    (bfsHopSetup false (bfsInit bigNodes 1)).frontier = List.range 100000 := by
  rw [bfsHopSetup_frontier_of_large false _ bigInit_frontier_big,
    bigInit_frontier, List.take_range]
  norm_num

theorem bigExpand_dropped : expand [((100000 : Nat), (200000 : Nat))] (List.range 100000) = [] := by
  simp [expand, List.mem_range]

theorem bigExpand_kept : expand [((99999 : Nat), (200000 : Nat))] (List.range 100000) = [200000] := by
  simp [expand, List.mem_range]

theorem bigNewNodes_kept :
    bfsNewNodes [(99999, 200000)] false (bfsInit bigNodes 1) = [200000] := by
  unfold bfsNewNodes
  rw [bigSetup_frontier, bigExpand_kept, bfsHopSetup_visited, bigInit_visited]
  simp [List.mem_range]

theorem bigHopNext_kept :
    bfsHopNext [(99999, 200000)] false (bfsInit bigNodes 1)
      = { visited := List.range 100001 ++ [200000],
          counts := [(0, 100001), (1, 1)], frontier := [200000], dist := 1,
          iter := 1, layers := [List.range 100001, [200000]],
          truncated := true, cmdFailed := false, fileMissed := false,
          log := [] } := by
  have h1 : bfsHopNext [(99999, 200000)] false (bfsInit bigNodes 1)
      = { visited := (bfsHopSetup false (bfsInit bigNodes 1)).visited
            ++ bfsNewNodes [(99999, 200000)] false (bfsInit bigNodes 1),
          counts := (bfsHopSetup false (bfsInit bigNodes 1)).counts
            ++ [((bfsHopSetup false (bfsInit bigNodes 1)).dist,
                (bfsNewNodes [(99999, 200000)] false (bfsInit bigNodes 1)).length)],
          frontier := bfsNewNodes [(99999, 200000)] false (bfsInit bigNodes 1),
          dist := (bfsHopSetup false (bfsInit bigNodes 1)).dist,
          iter := (bfsHopSetup false (bfsInit bigNodes 1)).iter,
          layers := (bfsHopSetup false (bfsInit bigNodes 1)).layers
            ++ [bfsNewNodes [(99999, 200000)] false (bfsInit bigNodes 1)],
          truncated := (bfsHopSetup false (bfsInit bigNodes 1)).truncated,
          cmdFailed := (bfsHopSetup false (bfsInit bigNodes 1)).cmdFailed,
          fileMissed := (bfsHopSetup false (bfsInit bigNodes 1)).fileMissed,
          log := (bfsHopSetup false (bfsInit bigNodes 1)).log } := rfl
  rw [h1, bigNewNodes_kept, bfsHopSetup_visited, bfsHopSetup_counts,
    bfsHopSetup_dist, bfsHopSetup_iter, bfsHopSetup_cmdFailed,
    bfsHopSetup_fileMissed, bfsHopSetup_log_not_verbose,
    bfsHopSetup_truncated_of_large false _ bigInit_frontier_big,
    bigInit_visited, bigInit_counts, bfsInit_bigNodes]
  simp

theorem bigRun_kept :
    (∃ t, (cleanRun bigNodes [(99999, 200000)] 1 20).counts
      = [(0, 100001), (1, 1)] ++ t)
    ∧ (cleanRun bigNodes [(99999, 200000)] 1 20).truncated = true := by
  have hNNlen : ¬ (bfsNewNodes [(99999, 200000)] false
      (bfsInit bigNodes 1)).length = 0 := by
    rw [bigNewNodes_kept]
    simp
  have hstep1 : cleanRun bigNodes [(99999, 200000)] 1 20
      = bfsLoop [(99999, 200000)] (fun _ => false) (fun _ => false) false 19
          (bfsHopNext [(99999, 200000)] false (bfsInit bigNodes 1)) := by
    have e0 : cleanRun bigNodes [(99999, 200000)] 1 20
        = bfsLoop [(99999, 200000)] (fun _ => false) (fun _ => false) false 20
            (bfsInit bigNodes 1) := rfl
    rw [e0, show (20 : Nat) = 19 + 1 from rfl]
    exact bfsLoop_succ_continue _ _ _ false 19 (bfsInit bigNodes 1)
      bigInit_frontier_len (by simp) (by simp) hNNlen
  constructor
  · obtain ⟨t, ht⟩ := bfsLoop_counts_append [(99999, 200000)] (fun _ => false)
      (fun _ => false) false 19
      (bfsHopNext [(99999, 200000)] false (bfsInit bigNodes 1))
    refine ⟨t, ?_⟩
    rw [hstep1, ht, bigHopNext_kept]
  · rw [hstep1]
    apply bfsLoop_truncated_mono
    rw [bigHopNext_kept]


theorem capEdges_expand1 :
    expand capEdges (List.range 100000) = [300000] := by
  simp [expand, capEdges, List.mem_range]

theorem capEdges_NN1 :
    bfsNewNodes capEdges false (bfsInit bigNodes 1) = [300000] := by
  unfold bfsNewNodes
  rw [bigSetup_frontier, capEdges_expand1, bfsHopSetup_visited, bigInit_visited]
  simp [List.mem_range]

theorem capEdges_next1 :
    bfsHopNext capEdges false (bfsInit bigNodes 1)
      = { visited := List.range 100001 ++ [300000],
          counts := [(0, 100001), (1, 1)], frontier := [300000], dist := 1,
          iter := 1, layers := [List.range 100001, [300000]],
          truncated := true, cmdFailed := false, fileMissed := false,
          log := [] } := by
  have h1 : bfsHopNext capEdges false (bfsInit bigNodes 1)
      = { visited := (bfsHopSetup false (bfsInit bigNodes 1)).visited
            ++ bfsNewNodes capEdges false (bfsInit bigNodes 1),
          counts := (bfsHopSetup false (bfsInit bigNodes 1)).counts
            ++ [((bfsHopSetup false (bfsInit bigNodes 1)).dist,
                (bfsNewNodes capEdges false (bfsInit bigNodes 1)).length)],
          frontier := bfsNewNodes capEdges false (bfsInit bigNodes 1),
          dist := (bfsHopSetup false (bfsInit bigNodes 1)).dist,
          iter := (bfsHopSetup false (bfsInit bigNodes 1)).iter,
          layers := (bfsHopSetup false (bfsInit bigNodes 1)).layers
            ++ [bfsNewNodes capEdges false (bfsInit bigNodes 1)],
          truncated := (bfsHopSetup false (bfsInit bigNodes 1)).truncated,
          cmdFailed := (bfsHopSetup false (bfsInit bigNodes 1)).cmdFailed,
          fileMissed := (bfsHopSetup false (bfsInit bigNodes 1)).fileMissed,
          log := (bfsHopSetup false (bfsInit bigNodes 1)).log } := rfl
  rw [h1, capEdges_NN1, bfsHopSetup_visited, bfsHopSetup_counts,
    bfsHopSetup_dist, bfsHopSetup_iter, bfsHopSetup_cmdFailed,
    bfsHopSetup_fileMissed, bfsHopSetup_log_not_verbose,
    bfsHopSetup_truncated_of_large false _ bigInit_frontier_big,
    bigInit_visited, bigInit_counts, bfsInit_bigNodes]
  simp

theorem capEdges_expand2 : expand capEdges [300000] = [200000] := by
  simp [expand, capEdges]

theorem capEdges_NN2 :
    bfsNewNodes capEdges false
      { visited := List.range 100001 ++ [300000],
        counts := [(0, 100001), (1, 1)], frontier := [300000], dist := 1,
        iter := 1, layers := [List.range 100001, [300000]],
        truncated := true, cmdFailed := false, fileMissed := false,
        log := [] } = [200000] := by
  unfold bfsNewNodes
  have hfr : (bfsHopSetup false
      { visited := List.range 100001 ++ [300000],
        counts := [(0, 100001), (1, 1)], frontier := [300000], dist := 1,
        iter := 1, layers := [List.range 100001, [300000]],
        truncated := true, cmdFailed := false, fileMissed := false,
        log := [] } : BfsState).frontier = [300000] := rfl
  rw [hfr, capEdges_expand2, bfsHopSetup_visited]
  simp [List.mem_append, List.mem_range]

theorem capEdges_next2 :
    bfsHopNext capEdges false
      { visited := List.range 100001 ++ [300000],
        counts := [(0, 100001), (1, 1)], frontier := [300000], dist := 1,
        iter := 1, layers := [List.range 100001, [300000]],
        truncated := true, cmdFailed := false, fileMissed := false,
        log := [] }
      = { visited := (List.range 100001 ++ [300000]) ++ [200000],
          counts := [(0, 100001), (1, 1), (2, 1)], frontier := [200000],
          dist := 2, iter := 2,
          layers := [List.range 100001, [300000], [200000]],
          truncated := true, cmdFailed := false, fileMissed := false,
          log := [] } := by
  have h1 : bfsHopNext capEdges false
      { visited := List.range 100001 ++ [300000],
        counts := [(0, 100001), (1, 1)], frontier := [300000], dist := 1,
        iter := 1, layers := [List.range 100001, [300000]],
        truncated := true, cmdFailed := false, fileMissed := false,
        log := [] }
      = { visited := (List.range 100001 ++ [300000])
            ++ bfsNewNodes capEdges false
              { visited := List.range 100001 ++ [300000],
                counts := [(0, 100001), (1, 1)], frontier := [300000],
                dist := 1, iter := 1,
                layers := [List.range 100001, [300000]], truncated := true,
                cmdFailed := false, fileMissed := false, log := [] },
          counts := [(0, 100001), (1, 1)]
            ++ [(2, (bfsNewNodes capEdges false
              { visited := List.range 100001 ++ [300000],
                counts := [(0, 100001), (1, 1)], frontier := [300000],
                dist := 1, iter := 1,
                layers := [List.range 100001, [300000]], truncated := true,
                cmdFailed := false, fileMissed := false, log := [] }).length)],
          frontier := bfsNewNodes capEdges false
              { visited := List.range 100001 ++ [300000],
                counts := [(0, 100001), (1, 1)], frontier := [300000],
                dist := 1, iter := 1,
                layers := [List.range 100001, [300000]], truncated := true,
                cmdFailed := false, fileMissed := false, log := [] },
          dist := 2, iter := 2,
          layers := [List.range 100001, [300000]]
            ++ [bfsNewNodes capEdges false
              { visited := List.range 100001 ++ [300000],
                counts := [(0, 100001), (1, 1)], frontier := [300000],
                dist := 1, iter := 1,
                layers := [List.range 100001, [300000]], truncated := true,
                cmdFailed := false, fileMissed := false, log := [] }],
          truncated := true, cmdFailed := false, fileMissed := false,
          log := [] } := rfl
  rw [h1, capEdges_NN2]
  simp

theorem capEdges_layers :
    ∃ t, (cleanRun bigNodes capEdges 1 20).layers
      = [List.range 100001, [300000], [200000]] ++ t := by
  have hNN1len : ¬ (bfsNewNodes capEdges false (bfsInit bigNodes 1)).length
      = 0 := by
    rw [capEdges_NN1]
    simp
  have hstep1 : cleanRun bigNodes capEdges 1 20
      = bfsLoop capEdges (fun _ => false) (fun _ => false) false 19
          (bfsHopNext capEdges false (bfsInit bigNodes 1)) := by
    have e0 : cleanRun bigNodes capEdges 1 20
        = bfsLoop capEdges (fun _ => false) (fun _ => false) false 20
            (bfsInit bigNodes 1) := rfl
    rw [e0, show (20 : Nat) = 19 + 1 from rfl]
    exact bfsLoop_succ_continue _ _ _ false 19 (bfsInit bigNodes 1)
      bigInit_frontier_len (by simp) (by simp) hNN1len
  have hstep2 : bfsLoop capEdges (fun _ => false) (fun _ => false) false 19
      { visited := List.range 100001 ++ [300000],
        counts := [(0, 100001), (1, 1)], frontier := [300000], dist := 1,
        iter := 1, layers := [List.range 100001, [300000]],
        truncated := true, cmdFailed := false, fileMissed := false,
        log := [] }
      = bfsLoop capEdges (fun _ => false) (fun _ => false) false 18
          (bfsHopNext capEdges false
            { visited := List.range 100001 ++ [300000],
              counts := [(0, 100001), (1, 1)], frontier := [300000],
              dist := 1, iter := 1,
              layers := [List.range 100001, [300000]], truncated := true,
              cmdFailed := false, fileMissed := false, log := [] }) := by
    rw [show (19 : Nat) = 18 + 1 from rfl]
    exact bfsLoop_succ_continue _ _ _ false 18 _ (by simp) (by simp) (by simp)
      (by rw [capEdges_NN2]; simp)
  obtain ⟨t, ht⟩ := bfsLoop_layers_append capEdges (fun _ => false)
    (fun _ => false) false 18
    (bfsHopNext capEdges false
      { visited := List.range 100001 ++ [300000],
        counts := [(0, 100001), (1, 1)], frontier := [300000], dist := 1,
        iter := 1, layers := [List.range 100001, [300000]],
        truncated := true, cmdFailed := false, fileMissed := false,
        log := [] })
  refine ⟨t, ?_⟩
  rw [hstep1, capEdges_next1, hstep2, ht, capEdges_next2]

theorem bigRun_dropped :
    (cleanRun bigNodes [(100000, 200000)] 1 20).counts = [(0, 100001)]
    ∧ (cleanRun bigNodes [(100000, 200000)] 1 20).truncated = true := by
  have hnew : (bfsNewNodes [(100000, 200000)] false
      (bfsInit bigNodes 1)).length = 0 := by
    unfold bfsNewNodes
    rw [bigSetup_frontier, bigExpand_dropped]
    rfl
  have hstep : cleanRun bigNodes [(100000, 200000)] 1 20
      = bfsHopSetup false (bfsInit bigNodes 1) := by
    have e0 : cleanRun bigNodes [(100000, 200000)] 1 20
        = bfsLoop [(100000, 200000)] (fun _ => false) (fun _ => false) false 20
            (bfsInit bigNodes 1) := rfl
    rw [e0, show (20 : Nat) = 19 + 1 from rfl]
    exact bfsLoop_succ_emptyNew [(100000, 200000)] (fun _ => false)
      (fun _ => false) false 19 (bfsInit bigNodes 1) bigInit_frontier_len
      (by simp) (by simp) hnew
  constructor
  · rw [hstep, bfsHopSetup_counts, bigInit_counts]
  · rw [hstep]
    exact bfsHopSetup_truncated_of_large false _ bigInit_frontier_big

/-- C1 counterexample: distances recorded by `iterative_bfs_sirius` are NOT
always the minimum number of edge traversals from the seed set.  On a
100001-seed dataset the frontier cap silently drops seed 100000 before the
hop-1 expansion, so node 200000 — one edge away from that dropped seed —
is recorded in the distance-2 discovery layer although its true graph
distance from the seed set is 1, not 2. -/
theorem claim_C1_counterexample :
    200000 ∈ (cleanRun bigNodes capEdges 1 20).layers.getD 2 []
    ∧ hasDist capEdges (seedsOf bigNodes 1).toFinset 200000 1
    ∧ ¬ hasDist capEdges (seedsOf bigNodes 1).toFinset 200000 2 := by
  have hS : 100000 ∈ (seedsOf bigNodes 1).toFinset := by
    rw [seedsOf_bigNodes]
    simp [List.mem_range]
  have hr1 : 200000 ∈ reach capEdges (seedsOf bigNodes 1).toFinset 1 := by
    show 200000 ∈ reach capEdges (seedsOf bigNodes 1).toFinset 0
      ∪ succsF capEdges (reach capEdges (seedsOf bigNodes 1).toFinset 0)
    refine Finset.mem_union.mpr (Or.inr (mem_succsF.mpr ⟨100000, ?_, hS⟩))
    simp [capEdges]
  have hnot0 : 200000 ∉ reach capEdges (seedsOf bigNodes 1).toFinset 0 := by
    show 200000 ∉ (seedsOf bigNodes 1).toFinset
    rw [seedsOf_bigNodes]
    simp [List.mem_range]
  refine ⟨?_, ⟨hr1, ?_⟩, ?_⟩
  · obtain ⟨t, ht⟩ := capEdges_layers
    rw [ht]
    simp only [List.cons_append, List.getD_cons_succ, List.getD_cons_zero]
    simp
  · intro k hk
    have hk0 : k = 0 := by omega
    subst hk0
    exact hnot0
  · rintro ⟨_, hmin⟩
    exact hmin 1 (by omega) hr1

/-- C4 counterexample: when the 100001-node frontier exceeds the cap the
run truncates it, but with `verbose=False` nothing is printed and the
returned result dictionary — which has no truncation field at all — is
indistinguishable from a clean run, so the truncation is NOT recorded on
the run's result. -/
theorem claim_C4_counterexample :
    (cleanRun bigNodes [] 1 20).truncated = true
    ∧ (cleanRun bigNodes [] 1 20).log = []
    ∧ bfsResult (cleanRun bigNodes [] 1 20) = ⟨100001, 0, [(0, 100001)], 1⟩ := by
  have hnew : (bfsNewNodes [] false (bfsInit bigNodes 1)).length = 0 := rfl
  have hstep : cleanRun bigNodes [] 1 20
      = bfsHopSetup false (bfsInit bigNodes 1) := by
    have e0 : cleanRun bigNodes [] 1 20
        = bfsLoop [] (fun _ => false) (fun _ => false) false 20
            (bfsInit bigNodes 1) := rfl
    rw [e0, show (20 : Nat) = 19 + 1 from rfl]
    exact bfsLoop_succ_emptyNew [] (fun _ => false) (fun _ => false) false 19
      (bfsInit bigNodes 1) bigInit_frontier_len (by simp) (by simp) hnew
  refine ⟨?_, ?_, ?_⟩
  · rw [hstep]
    exact bfsHopSetup_truncated_of_large false _ bigInit_frontier_big
  · rw [hstep, bfsHopSetup_log_not_verbose]
    rw [bfsInit_bigNodes]
  · rw [hstep]
    have hres : bfsResult (bfsHopSetup false (bfsInit bigNodes 1))
        = { total_nodes := (bfsHopSetup false (bfsInit bigNodes 1)).visited.length,
            max_distance := if (bfsHopSetup false (bfsInit bigNodes 1)).counts.isEmpty
              then 0
              else ((bfsHopSetup false (bfsInit bigNodes 1)).counts.map
                Prod.fst).foldl max 0,
            distances := (bfsHopSetup false (bfsInit bigNodes 1)).counts,
            iterations := (bfsHopSetup false (bfsInit bigNodes 1)).iter } := rfl
    rw [hres, bfsHopSetup_visited, bfsHopSetup_counts, bfsHopSetup_iter,
      bigInit_visited, bigInit_counts, List.length_range, bfsInit_bigNodes]
    decide

/-- C4 (amended): an over-large frontier is truncated deterministically and
stably — the first 100000 ids in frontier order are kept — before the
expansion command is built, and the hop is marked as truncated in the loop
state; but with `verbose=False` the run prints nothing, and the returned
result records nothing.  On the 100001-seed dataset, an edge out of kept
seed 99999 is still expanded (one distance-1 discovery) while an edge out
of dropped seed 100000 never is (no discoveries at all). -/
theorem claim_C4_amended :
    (∀ (v : Bool) (st : BfsState), 100000 < st.frontier.length →
      (bfsHopSetup v st).frontier = st.frontier.take 100000
      ∧ (bfsHopSetup v st).truncated = true)
    ∧ (∀ (nodes : List NodeRow) (edges : List EdgeRow) (c mh : Nat)
        (cf fm : Nat → Bool),
        (bfsRunState nodes edges c mh cf fm false).log = [])
    ∧ (cleanRun bigNodes [(100000, 200000)] 1 20).counts = [(0, 100001)]
    ∧ (∃ t, (cleanRun bigNodes [(99999, 200000)] 1 20).counts
        = [(0, 100001), (1, 1)] ++ t) := by
  refine ⟨fun v st h => ⟨bfsHopSetup_frontier_of_large v st h,
      bfsHopSetup_truncated_of_large v st h⟩, ?_, bigRun_dropped.1,
    bigRun_kept.1⟩
  intro nodes edges c mh cf fm
  show (bfsLoop edges cf fm false mh (bfsInit nodes c)).log = []
  rw [bfsLoop_log_not_verbose]
  rfl

/-- Witness for C4's amended theorem: the initial 100001-node frontier of
the big dataset is over the cap, and is truncated to its first 100000
ids. -/
theorem claim_C4_witness :
    100000 < (bfsInit bigNodes 1).frontier.length
    ∧ (bfsHopSetup false (bfsInit bigNodes 1)).frontier
        = (bfsInit bigNodes 1).frontier.take 100000 :=
  ⟨bigInit_frontier_big,
    (claim_C4_amended.1 false (bfsInit bigNodes 1) bigInit_frontier_big).1⟩

/-- Witness for C10 on a two-node graph with distinct ids: the reported
total node count equals the sum of the per-distance counts. -/
theorem claim_C10_witness :
    (([(0, 1), (1, 1)] : List NodeRow).map Prod.fst).Nodup
    ∧ (iterative_bfs_sirius [(0, 1), (1, 1)] [(0, 1)] 1 20 (fun _ => false)
        (fun _ => false) false).total_nodes
      = ((iterative_bfs_sirius [(0, 1), (1, 1)] [(0, 1)] 1 20 (fun _ => false)
          (fun _ => false) false).distances.map Prod.snd).sum :=
  ⟨by decide,
    (claim_C10 [(0, 1), (1, 1)] [(0, 1)] 1 20 (fun _ => false)
      (fun _ => false) false (by decide)).1⟩
